import Mathlib

/-!
Verification development for the VAST repository.

Part 1 embeds `src/hole_combine.py` (sphere/hole merging, `combine_holes`).
Part 2 embeds `Zobov.sortVoids` from `src/python/vast/vsquared/zobov.py`.

Numpy floating-point values are modelled as real numbers; all branch
conditions and formulas are transcribed from the source.  External helper
functions of the repository that are not present under `src/`
(`vast.vsquared.util`: `wCen`, `getSMA`, `inSphere`, `flatten`, `P`, and
`scipy.stats.norm.isf`) are modelled from the spec, as marked in their
doc comments, or taken as parameters.
-/

open Classical

namespace VoidFinder

/-- A candidate sphere: a row `(x, y, z, radius)` of `spheres_table`. -/
structure Sphere where
  x : ℝ
  y : ℝ
  z : ℝ
  radius : ℝ

instance : Inhabited Sphere := ⟨⟨0, 0, 0, 0⟩⟩

/-- Row `i` of the table (`spheres_table[i]`). -/
def sphAt (tbl : List Sphere) (i : ℕ) : Sphere := tbl.getD i default

/-- `np.linalg.norm` distance between the centers of two spheres, as computed
in `combine_holes` (`separation`); the first argument is the maximal sphere,
the second the sphere `i` under examination. -/
noncomputable def sep (m s : Sphere) : ℝ :=
  Real.sqrt ((m.x - s.x) ^ 2 + (m.y - s.y) ^ 2 + (m.z - s.z) ^ 2)

/-- `cap_height(R, r, d)` from `src/hole_combine.py`. -/
noncomputable def cap_height (R r d : ℝ) : ℝ := (r - R + d) * (r + R - d) / (2 * d)

/-- `spherical_cap_volume(radius, height)` from `src/hole_combine.py`. -/
noncomputable def spherical_cap_volume (radius height : ℝ) : ℝ :=
  Real.pi * height ^ 2 * (3 * radius - height) / 3

/-- `volume_i = (4./3.)*np.pi*sphere_i_radius**3` from `combine_holes`. -/
noncomputable def sphere_volume (r : ℝ) : ℝ := (4 / 3) * Real.pi * r ^ 3

/-- The overlap volume `combine_holes` computes for sphere `s` against a
maximal sphere `m`: the sum of the two spherical-cap volumes. -/
noncomputable def overlapVolume (s m : Sphere) : ℝ :=
  spherical_cap_volume s.radius (cap_height s.radius m.radius (sep m s)) +
    spherical_cap_volume m.radius (cap_height m.radius s.radius (sep m s))

/-- The containment test of `combine_holes`:
`(maximal_spheres_radii - sphere_i_radius) > separation`. -/
noncomputable def containsS (m s : Sphere) : Prop := m.radius - s.radius > sep m s

/-- The overlap test of `combine_holes`:
`separation <= (sphere_i_radius + maximal_spheres_radii)`. -/
noncomputable def overlapsS (s m : Sphere) : Prop := sep m s ≤ s.radius + m.radius

/-- `N_large_spheres = sum(spheres_table['radius'] > 10)`. -/
noncomputable def largeCount : List Sphere → ℕ
  | [] => 0
  | s :: rest => (if 10 < s.radius then 1 else 0) + largeCount rest

/-- One iteration of the phase-1 loop of `combine_holes` (lines 80-153):
given the accumulated `maximal_spheres_indices` and the next index `i`,
either keep the accumulator or append `i`. -/
noncomputable def phase1Step (tbl : List Sphere) (frac : ℝ) (acc : List ℕ) (i : ℕ) :
    List ℕ :=
  if ∃ m ∈ acc.map (sphAt tbl), containsS m (sphAt tbl i) then acc
  else if ∃ m ∈ acc.map (sphAt tbl), overlapsS (sphAt tbl i) m then
    if ∀ m ∈ acc.map (sphAt tbl), overlapsS (sphAt tbl i) m →
        overlapVolume (sphAt tbl i) m ≤ frac * sphere_volume (sphAt tbl i).radius then
      acc ++ [i]
    else acc
  else acc ++ [i]

/-- `maximal_spheres_indices` after the phase-1 loop: the accumulator starts
as `[0]` (the largest hole is a void) and the loop runs over
`range(1, N_large_spheres)`, which is `List.range' 1 (N_large_spheres - 1)`. -/
noncomputable def maximalIndices (tbl : List Sphere) (frac : ℝ) : List ℕ :=
  (List.range' 1 (largeCount tbl - 1)).foldl (phase1Step tbl frac) [0]

/-- The rows of `maximal_spheres_table` (without the flag column). -/
noncomputable def maximalSpheres (tbl : List Sphere) (frac : ℝ) : List Sphere :=
  (maximalIndices tbl frac).map (sphAt tbl)

/-- `maximal_spheres_table` with its `flag` column `np.arange(N_voids) + 1`. -/
noncomputable def maximalTable (tbl : List Sphere) (frac : ℝ) : List (Sphere × ℕ) :=
  (maximalIndices tbl frac).enum.map (fun p => (sphAt tbl p.2, p.1 + 1))

/-- Phase 2, `maximal_overlap_indices[overlap2_boolean]`: the positions `k`
(into `maximal_indices = np.arange(N_voids)`) of the maximal spheres that
sphere `i` overlaps (`overlap_boolean`) with overlap volume exceeding half
its own volume (`overlap2_boolean`). -/
noncomputable def bigList (tbl : List Sphere) (frac : ℝ) (i : ℕ) : List ℕ :=
  (List.range (maximalIndices tbl frac).length).filter fun k =>
    decide (overlapsS (sphAt tbl i) ((maximalSpheres tbl frac).getD k default) ∧
      overlapVolume (sphAt tbl i) ((maximalSpheres tbl frac).getD k default) >
        0.5 * sphere_volume (sphAt tbl i).radius)

/-- The condition under which the phase-2 loop of `combine_holes`
(lines 194-260) appends `i` to `holes_indices`: `i` is not a maximal sphere,
is not strictly inside any maximal sphere, overlaps at least one maximal
sphere, and `sum(overlap2_boolean) == 1`.  (The source counts
`overlap_volume > 0.5*volume_i` only over the overlapping maximal spheres;
`bigList` carries the overlap condition in its predicate, so its length is
that same count.) -/
def isHole (tbl : List Sphere) (frac : ℝ) (i : ℕ) : Prop :=
  i ∉ maximalIndices tbl frac ∧
    ¬(∃ m ∈ maximalSpheres tbl frac, containsS m (sphAt tbl i)) ∧
    (∃ m ∈ maximalSpheres tbl frac, overlapsS (sphAt tbl i) m) ∧
    (bigList tbl frac i).length = 1

/-- `holes_indices` accumulated by the phase-2 loop.  The loop's per-index
decision reads only the maximal-sphere data, so the accumulated list is the
filter of `range(N_spheres)` by that decision. -/
noncomputable def holesIndices (tbl : List Sphere) (frac : ℝ) : List ℕ :=
  (List.range tbl.length).filter fun i => decide (isHole tbl frac i)

/-- The flag a hole receives:
`maximal_spheres_table['flag'][maximal_overlap_indices[overlap2_boolean]]`,
i.e. one plus the position of the unique qualifying maximal sphere. -/
noncomputable def holeFlag (tbl : List Sphere) (frac : ℝ) (i : ℕ) : ℕ :=
  (bigList tbl frac i).headD 0 + 1

/-- `holes_table = spheres_table[holes_indices]`, with the flag column each
hole was assigned. -/
noncomputable def holesTable (tbl : List Sphere) (frac : ℝ) : List (Sphere × ℕ) :=
  (holesIndices tbl frac).map fun i => (sphAt tbl i, holeFlag tbl frac i)

/-- `combine_holes(spheres_table, frac)`: returns
`(maximal_spheres_table, holes_table)`. -/
noncomputable def combine_holes (tbl : List Sphere) (frac : ℝ) :
    List (Sphere × ℕ) × List (Sphere × ℕ) :=
  (maximalTable tbl frac, holesTable tbl frac)

/-- The precondition documented by `combine_holes`: the table is sorted by
descending radius. -/
def sortedDesc (tbl : List Sphere) : Prop :=
  tbl.Pairwise fun a b => b.radius ≤ a.radius

/-- The center of a sphere. -/
def center (s : Sphere) : ℝ × ℝ × ℝ := (s.x, s.y, s.z)

/-- No two rows of the table share a center. -/
def distinctCenters (tbl : List Sphere) : Prop :=
  ∀ i j, i < tbl.length → j < tbl.length → i ≠ j →
    center (sphAt tbl i) ≠ center (sphAt tbl j)

/-- The accumulator of the phase-1 loop at the moment index `i` is examined:
the fold over `range(1, i)` (every earlier iteration). -/
noncomputable def maximalIndicesUpTo (tbl : List Sphere) (frac : ℝ) (i : ℕ) : List ℕ :=
  (List.range' 1 (i - 1)).foldl (phase1Step tbl frac) [0]

/-- Phase 1 evaluates `cap_height` with a zero center distance: some
iteration `i` of the phase-1 loop fails the containment test, finds an
overlapping maximal sphere, and one of the overlapping maximal spheres
(over which `cap_height(..., separation)` is then evaluated) is at
separation `0` from sphere `i`. -/
noncomputable def phase1ZeroSepCall (tbl : List Sphere) (frac : ℝ) : Prop :=
  ∃ i, 1 ≤ i ∧ i < largeCount tbl ∧
    ¬(∃ m ∈ (maximalIndicesUpTo tbl frac i).map (sphAt tbl),
        containsS m (sphAt tbl i)) ∧
    (∃ m ∈ (maximalIndicesUpTo tbl frac i).map (sphAt tbl),
        overlapsS (sphAt tbl i) m ∧ sep m (sphAt tbl i) = 0)

/-- Phase 2 evaluates `cap_height` with a zero center distance, analogously. -/
noncomputable def phase2ZeroSepCall (tbl : List Sphere) (frac : ℝ) : Prop :=
  ∃ i < tbl.length, i ∉ maximalIndices tbl frac ∧
    ¬(∃ m ∈ maximalSpheres tbl frac, containsS m (sphAt tbl i)) ∧
    (∃ m ∈ maximalSpheres tbl frac,
        overlapsS (sphAt tbl i) m ∧ sep m (sphAt tbl i) = 0)

/-- Some call of `cap_height` made by `combine_holes` divides by `2*d` with
`d = 0`. -/
noncomputable def callsCapHeightZeroSep (tbl : List Sphere) (frac : ℝ) : Prop :=
  phase1ZeroSepCall tbl frac ∨ phase2ZeroSepCall tbl frac

/-- A one-row table whose only sphere has radius 5, below the seed
threshold. -/
def tblSmall : List Sphere := [⟨0, 0, 0, 5⟩]

/-- A table with one large sphere (radius 20 at the origin) and one small
sphere (radius 8 at distance 14), which overlaps the large one by more than
half its own volume. -/
def tblC2 : List Sphere := [⟨0, 0, 0, 20⟩, ⟨14, 0, 0, 8⟩]

/-- Sorted table in which sphere `B` (row 2, radius 11) is fully contained
in sphere `A` (row 1, radius 30), while `A` itself is rejected as maximal
because it overlaps sphere `M` (row 0, radius 31) by more than 10 percent of
its volume, and `B` does not overlap `M` at all. -/
def tblC7 : List Sphere := [⟨0, 0, 0, 31⟩, ⟨35, 0, 0, 30⟩, ⟨53, 0, 0, 11⟩]

/-- A table where the second sphere is strictly contained in the first
(maximal) sphere. -/
def tblC7w : List Sphere := [⟨0, 0, 0, 20⟩, ⟨5, 0, 0, 11⟩]

/-- A table with two identical spheres: coincident centers, equal radii. -/
def tblDup : List Sphere := [⟨0, 0, 0, 20⟩, ⟨0, 0, 0, 20⟩]

/-- Three equal-radius, pairwise mutually tangent spheres: centers at the
corners of a scaled coordinate simplex, radius `10·√2`, pairwise center
distance `20·√2 = 2r`. -/
noncomputable def tangentR : ℝ := 10 * Real.sqrt 2

/-- First tangent sphere. -/
noncomputable def tg1 : Sphere := ⟨20, 0, 0, tangentR⟩

/-- Second tangent sphere. -/
noncomputable def tg2 : Sphere := ⟨0, 20, 0, tangentR⟩

/-- Third tangent sphere. -/
noncomputable def tg3 : Sphere := ⟨0, 0, 20, tangentR⟩

end VoidFinder

namespace Vsquared

/-- A 3-vector (one row of a numpy coordinate array). -/
abbrev Vec3 := ℝ × ℝ × ℝ

/-- The parts of the external `Catalog` service `sortVoids` reads:
galaxy positions `coord` and the canonical-representative map `nnls`. -/
structure Catalog where
  coord : List Vec3
  nnls : List ℕ

/-- The external `Tesselation` service: per-cell volumes. -/
structure Tesselation where
  volumes : List ℝ

/-- The external `Zones` service: per-zone cell lists and zone volumes. -/
structure Zones where
  zcell : List (List ℕ)
  zvols : List ℝ

/-- The external `Voids` service (`self.prevoids`): the zone merge
hierarchy `ovols`/`mvols`/`voids`. -/
structure Prevoids where
  ovols : List (List ℝ)
  mvols : List ℝ
  voids : List (List (List ℕ))

instance : Inhabited Zones := ⟨⟨[], []⟩⟩

instance : Inhabited Prevoids := ⟨⟨[], [], []⟩⟩

/-- The attributes of a `Zobov` object that `sortVoids` reads.  `zones` and
`prevoids` are optional: they model the presence or absence of the pickled
pipeline-stage attributes tested by `hasattr`. -/
structure ZobovState where
  catalog : Catalog
  tesselation : Tesselation
  zones : Option Zones
  prevoids : Option Prevoids
  minrad : ℝ

/-- numpy fancy indexing `xs[idxs]` by an integer index list. -/
def selectIdx {α : Type} [Inhabited α] (xs : List α) (idxs : List ℕ) : List α :=
  idxs.map fun i => xs.getD i default

/-- numpy boolean-mask indexing `xs[mask]`. -/
def applyMask {α : Type} (mask : List Bool) (xs : List α) : List α :=
  ((mask.zip xs).filter fun p => p.1).map fun p => p.2

/-- `np.mean`. -/
noncomputable def listMean (xs : List ℝ) : ℝ := xs.sum / xs.length

/-- `minvol = np.mean(self.tesselation.volumes[self.tesselation.volumes>0])/dc`. -/
noncomputable def minvol0 (t : Tesselation) (dc : ℝ) : ℝ :=
  listMean (t.volumes.filter fun v => decide (0 < v)) / dc

/-- Ascending insertion into a sorted list (used to model `np.median`'s
sort). -/
noncomputable def insertLe (x : ℝ) : List ℝ → List ℝ
  | [] => [x]
  | y :: ys => if x ≤ y then x :: y :: ys else y :: insertLe x ys

/-- Ascending sort of a real list. -/
noncomputable def sortAsc (xs : List ℝ) : List ℝ := xs.foldr insertLe []

/-- `np.median`: the middle element of the ascending sort for odd length,
the average of the two middle elements for even length. -/
noncomputable def npMedian (xs : List ℝ) : ℝ :=
  if xs.length % 2 = 1 then (sortAsc xs).getD (xs.length / 2) 0
  else ((sortAsc xs).getD (xs.length / 2 - 1) 0 +
    (sortAsc xs).getD (xs.length / 2) 0) / 2

/-- The inner accumulation loop of method 0 over the listed iteration
indices: `for j in range(len(vl)-1): if j > 0 and vl[j] < minvol: break;
vbuff.extend(self.prevoids.voids[i][j])`. -/
noncomputable def videGo (vl : List ℝ) (groups : List (List ℕ)) (minvol : ℝ) :
    List ℕ → List ℕ
  | [] => []
  | j :: js =>
    if 0 < j ∧ vl.getD j 0 < minvol then []
    else groups.getD j [] ++ videGo vl groups minvol js

/-- One zone-hierarchy entry's accumulated `vbuff` for method 0. -/
noncomputable def videBuff (vl : List ℝ) (groups : List (List ℕ)) (minvol : ℝ) :
    List ℕ :=
  videGo vl groups minvol (List.range (vl.length - 1))

/-- All method-0 void candidates (`voids` after the method-0 branch). -/
noncomputable def videVoids (pv : Prevoids) (minvol : ℝ) : List (List ℕ) :=
  (List.range pv.ovols.length).map fun i =>
    videBuff (pv.ovols.getD i []) (pv.voids.getD i []) minvol

/-- The number of merge levels method 0 accumulates for one hierarchy entry:
the position of the first iterated level `j ≥ 1` whose volume `vl[j]` drops
below `minvol`, or the loop length `len(vl) - 1` when none does.  This is
the claim-side (declarative) description of the loop's stopping point. -/
noncomputable def videStopGo (vl : List ℝ) (minvol : ℝ) : List ℕ → ℕ
  | [] => 0
  | j :: js =>
    if 0 < j ∧ vl.getD j 0 < minvol then 0 else 1 + videStopGo vl minvol js

/-- The stopping level of the method-0 accumulation loop. -/
noncomputable def videStopIdx (vl : List ℝ) (minvol : ℝ) : ℕ :=
  videStopGo vl minvol (List.range (vl.length - 1))

/-- Method-2 candidate selection: keep hierarchy entries whose significance
`isf(P(r)/2)` is at least `minsig`, where `r = mvols[i]/ovols[i][-1]`.
The density-ratio probability `P` and `scipy.stats.norm.isf` are external to
`src/` (`vast.vsquared.util` and scipy) and are taken as parameters. -/
noncomputable def sigVoids (Pf isf : ℝ → ℝ) (pv : Prevoids) (minsig : ℝ) :
    List (List ℕ) :=
  ((List.range pv.mvols.length).filter fun i =>
      decide (minsig ≤
        isf (Pf (pv.mvols.getD i 0 / ((pv.ovols.getD i []).getLastD 0)) / 2))).map
    fun i => (pv.voids.getD i []).flatten

/-- The `method` dispatch of `sortVoids` (candidate selection), with the
early `print(...); return` exits modelled as errors carrying the printed
message. -/
noncomputable def selectVoids (Pf isf : ℝ → ℝ) (s : ZobovState) (method : ℕ)
    (minsig dc : ℝ) : Except String (List (List ℕ)) :=
  if method = 0 then
    .ok (videVoids (s.prevoids.getD default) (minvol0 s.tesselation dc))
  else if method = 1 then
    .ok ((s.prevoids.getD default).voids.map List.flatten)
  else if method = 2 then
    .ok (sigVoids Pf isf (s.prevoids.getD default) minsig)
  else if method = 3 then
    .error "Method 3 coming soon"
  else if method = 4 then
    .ok ((List.range (s.zones.getD default).zvols.length).map fun i => [i])
  else
    .error "Choose a valid method"

/-- `gcut = np.arange(len(coord))[nnls == np.arange(len(nnls))]`. -/
def gcut (c : Catalog) : List ℕ :=
  (List.range c.coord.length).filter fun i => decide (c.nnls.getD i 0 = i)

/-- `cutco = self.catalog.coord[gcut]`. -/
def cutco (c : Catalog) : List Vec3 := selectIdx c.coord (gcut c)

/-- `vcuts = [list(flatten(self.zones.zcell[v])) for v in voids]`.
`flatten` is external to `src/`; modelled from the spec as flattening the
selected zones' cell lists into one cell list. -/
def vcutsOf (z : Zones) (voids : List (List ℕ)) : List (List ℕ) :=
  voids.map fun v => (v.map fun j => z.zcell.getD j []).flatten

/-- `vvols = np.array([np.sum(self.tesselation.volumes[vcut]) for vcut in
vcuts])`. -/
noncomputable def vvolsOf (t : Tesselation) (vcuts : List (List ℕ)) : List ℝ :=
  vcuts.map fun cut => (selectIdx t.volumes cut).sum

/-- `vrads = (vvols*3/(4*np.pi))**(1/3)`, one entry. -/
noncomputable def vradOf (V : ℝ) : ℝ := (V * 3 / (4 * Real.pi)) ^ ((1 : ℝ) / 3)

/-- Modelled from the spec: `wCen` (`vast.vsquared.util`, not under `src/`)
returns the volume-weighted centroid `Σ(volume_i·pos_i)/Σ volume_i` of the
member positions. -/
noncomputable def wCen (vols : List ℝ) (pts : List Vec3) : Vec3 :=
  (((vols.zip pts).map fun p => p.1 * p.2.1).sum / vols.sum,
    ((vols.zip pts).map fun p => p.1 * p.2.2.1).sum / vols.sum,
    ((vols.zip pts).map fun p => p.1 * p.2.2.2).sum / vols.sum)

/-- Modelled from the spec: `inSphere` (`vast.vsquared.util`, not under
`src/`) selects the points within distance `r` of `cen`; `sortVoids` only
uses the size of the selection (`len(cutco[inSphere(...)])`). -/
noncomputable def inSphereCount (cen : Vec3) (r : ℝ) (pts : List Vec3) : ℕ :=
  (pts.filter fun p =>
    decide (Real.sqrt ((p.1 - cen.1) ^ 2 + (p.2.1 - cen.2.1) ^ 2 +
      (p.2.2 - cen.2.2) ^ 2) < r)).length

/-- Modelled from the spec: `getSMA` (`vast.vsquared.util`, not under
`src/`) returns the three semi-axis vectors of the void's best-fit
ellipsoid, with magnitudes matching the effective radius.  No claim
constrains the axis directions, so the isotropic solution is used. -/
def getSMA (r : ℝ) (_pts : List Vec3) : Vec3 × Vec3 × Vec3 :=
  ((r, 0, 0), (0, r, 0), (0, 0, r))

/-- The inner `for j in voids[i]` update of the zone-void map.  `zvoid[j]`
is `(-1,-1)` when unassigned; the source tests `zvoid[j][0] > -0.5` over
integer-valued entries, i.e. assignment means a nonnegative first entry. -/
def zvInner (voids : List (List ℕ)) (i : ℕ) (zv : List (ℤ × ℤ)) (j : ℕ) :
    List (ℤ × ℤ) :=
  let e := zv.getD j (-1, -1)
  if 0 ≤ e.1 then
    if (voids.getD i []).length < (voids.getD e.1.toNat []).length then
      zv.set j ((i : ℤ), e.2)
    else if (voids.getD e.2.toNat []).length < (voids.getD i []).length then
      zv.set j (e.1, (i : ℤ))
    else zv
  else zv.set j ((i : ℤ), (i : ℤ))

/-- The zone-void map construction loop of `sortVoids`:
`zvoid = [[-1,-1]]*nzones`, then for each candidate `i` in selection order
and each zone `j` in it, update `zvoid[j]`. -/
def buildZvoid (nz : ℕ) (voids : List (List ℕ)) : List (ℤ × ℤ) :=
  (List.range voids.length).foldl
    (fun zv i => (voids.getD i []).foldl (fun zv2 j => zvInner voids i zv2 j) zv)
    (List.replicate nz (-1, -1))

/-- The outputs a successful `sortVoids` run stores on the object
(`vrads`, `vcens`, `vaxes`, `zvoid`, and the possibly updated `minrad`),
together with the intermediate candidate lists the claims refer to
(`voidsSel`: the method's selection; `vradsPre`: the effective radii before
the minimum-radius cut; `voidsF`: the candidates surviving all cuts). -/
structure RunData where
  voidsSel : List (List ℕ)
  vradsPre : List ℝ
  minradOut : ℝ
  voidsF : List (List ℕ)
  vrads : List ℝ
  vcens : List Vec3
  vaxes : List (Vec3 × Vec3 × Vec3)
  zvoid : List (ℤ × ℤ)

/-- Everything `sortVoids` does after candidate selection: volumes, radii,
the minimum-radius cut (`rcut`, with `minrad` re-set to the median radius
for method 4), centers, the method-0 density re-check (`dcut`) and second
radius cut, ellipsoid axes, and the zone-void map.  As in the source, the
method-0 block does not re-filter `vcuts`, so `vaxes` uses the `rcut`-only
cell lists. -/
noncomputable def postProcess (s : ZobovState) (method : ℕ) (dc : ℝ)
    (voids : List (List ℕ)) : RunData :=
  let z := s.zones.getD default
  let co := cutco s.catalog
  let vcuts := vcutsOf z voids
  let vvols := vvolsOf s.tesselation vcuts
  let vradsPre := vvols.map vradOf
  let minrad := if method = 4 then npMedian vradsPre else s.minrad
  let rmask := vradsPre.map fun r => decide (minrad < r)
  let voids1 := applyMask rmask voids
  let vcuts1 := applyMask rmask vcuts
  let vvols1 := applyMask rmask vvols
  let vrads1 := applyMask rmask vradsPre
  let vcens1 := vcuts1.map fun cut =>
    wCen (selectIdx s.tesselation.volumes cut) (selectIdx co cut)
  let minvol := minvol0 s.tesselation dc
  let dmask := (List.range vrads1.length).map fun i =>
    decide (64 * ((inSphereCount (vcens1.getD i default)
      (vrads1.getD i 0 / 4) co : ℕ) : ℝ) / vvols1.getD i 0 < 1 / minvol)
  let vrads2 := applyMask dmask vrads1
  let rmask2 := vrads2.map fun r => decide ((minvol * dc) ^ ((1 : ℝ) / 3) < r)
  let vradsF := if method = 0 then applyMask rmask2 vrads2 else vrads1
  let vcensF := if method = 0 then applyMask rmask2 (applyMask dmask vcens1)
    else vcens1
  let voidsF := if method = 0 then applyMask rmask2 (applyMask dmask voids1)
    else voids1
  let vaxes := (List.range vradsF.length).map fun i =>
    getSMA (vradsF.getD i 0) (selectIdx co (vcuts1.getD i []))
  let zvoid := buildZvoid z.zvols.length voidsF
  ⟨voids, vradsPre, minrad, voidsF, vradsF, vcensF, vaxes, zvoid⟩

/-- `Zobov.sortVoids(method, minsig, dc)`.  The early `print(...); return`
exits (missing pipeline stages, method 3, invalid method) are modelled as
`Except.error` carrying the printed message — the object's void attributes
are not set in those cases; a successful run returns the computed
attributes. -/
noncomputable def sortVoids (Pf isf : ℝ → ℝ) (s : ZobovState) (method : ℕ)
    (minsig dc : ℝ) : Except String RunData :=
  if s.prevoids.isNone ∧ method ≠ 4 then .error "Run all stages of Zobov first"
  else if s.prevoids.isNone ∧ s.zones.isNone then
    .error "Run all stages of Zobov first"
  else
    match selectVoids Pf isf s method minsig dc with
    | .error e => .error e
    | .ok voids => .ok (postProcess s method dc voids)

/-- Example pipeline state whose run stopped after zone generation: three
galaxies, identity `nnls`, one cell per zone, cell volumes
`(4π/3)·{1³, 2³, 3³}` (so the candidate radii are 1, 2, 3), zones present,
`prevoids` absent, configured `minrad = 0`. -/
noncomputable def exState : ZobovState :=
  { catalog := ⟨[(0, 0, 0), (1, 0, 0), (0, 1, 0)], [0, 1, 2]⟩
    tesselation := ⟨[4 / 3 * Real.pi * 1 ^ 3, 4 / 3 * Real.pi * 2 ^ 3,
      4 / 3 * Real.pi * 3 ^ 3]⟩
    zones := some ⟨[[0], [1], [2]], [1, 1, 1]⟩
    prevoids := none
    minrad := 0 }

/-- The run data of the successful method-4 `sortVoids` run on `exState`. -/
noncomputable def exRun : RunData := postProcess exState 4 (1 / 5) [[0], [1], [2]]

/-- A example zone-merge hierarchy with one entry: four merge-threshold
volumes `[10, 5, 3, 1]` and three per-level cell groups `[0], [1], [2]`. -/
noncomputable def pv0 : Prevoids := ⟨[[10, 5, 3, 1]], [1], [[[0], [1], [2]]]⟩

/-- `exState` with the prevoids stage present (a full pipeline run). -/
noncomputable def exState0 : ZobovState := { exState with prevoids := some pv0 }

end Vsquared

namespace VoidFinder

lemma sep_nonneg (m s : Sphere) : 0 ≤ sep m s := Real.sqrt_nonneg _

lemma sep_eq (m s : Sphere) (d : ℝ) (hd : 0 ≤ d)
    (h : (m.x - s.x) ^ 2 + (m.y - s.y) ^ 2 + (m.z - s.z) ^ 2 = d ^ 2) :
    sep m s = d := by
  rw [sep, h, Real.sqrt_sq hd]

lemma sep_eq_zero_iff (m s : Sphere) : sep m s = 0 ↔ center m = center s := by
  rw [sep, Real.sqrt_eq_zero']
  constructor
  · intro h
    have hx : (m.x - s.x) ^ 2 = 0 := by
      nlinarith [sq_nonneg (m.x - s.x), sq_nonneg (m.y - s.y), sq_nonneg (m.z - s.z)]
    have hy : (m.y - s.y) ^ 2 = 0 := by
      nlinarith [sq_nonneg (m.x - s.x), sq_nonneg (m.y - s.y), sq_nonneg (m.z - s.z)]
    have hz : (m.z - s.z) ^ 2 = 0 := by
      nlinarith [sq_nonneg (m.x - s.x), sq_nonneg (m.y - s.y), sq_nonneg (m.z - s.z)]
    have hx' : m.x = s.x := by nlinarith [hx]
    have hy' : m.y = s.y := by nlinarith [hy]
    have hz' : m.z = s.z := by nlinarith [hz]
    simp [center, hx', hy', hz']
  · intro h
    simp only [center, Prod.mk.injEq] at h
    obtain ⟨hx, hy, hz⟩ := h
    rw [hx, hy, hz]
    ring_nf
    norm_num

lemma largeCount_le_length (tbl : List Sphere) : largeCount tbl ≤ tbl.length := by
  induction tbl with
  | nil => simp [largeCount]
  | cons s rest ih =>
    simp only [largeCount, List.length_cons]
    split_ifs <;> omega

lemma largeCount_pos_iff (tbl : List Sphere) :
    0 < largeCount tbl ↔ ∃ s ∈ tbl, 10 < s.radius := by
  induction tbl with
  | nil => simp [largeCount]
  | cons s rest ih =>
    simp only [largeCount, List.mem_cons]
    split_ifs with h
    · constructor
      · intro _
        exact ⟨s, Or.inl rfl, h⟩
      · intro _
        omega
    · simp only [Nat.zero_add]
      rw [ih]
      constructor
      · rintro ⟨t, ht, hr⟩
        exact ⟨t, Or.inr ht, hr⟩
      · rintro ⟨t, ht, hr⟩
        rcases ht with rfl | ht
        · exact absurd hr h
        · exact ⟨t, ht, hr⟩

/-- In a radius-descending table, the first `N_large_spheres` rows are
exactly the rows with radius above 10. -/
lemma radius_big_of_lt_largeCount (tbl : List Sphere) (hs : sortedDesc tbl) :
    ∀ i, i < largeCount tbl → 10 < (sphAt tbl i).radius := by
  induction tbl with
  | nil => simp [largeCount]
  | cons s rest ih =>
    intro i hi
    rcases List.pairwise_cons.mp hs with ⟨hhead, htail⟩
    cases i with
    | zero =>
      simp only [sphAt, List.getD_cons_zero]
      by_contra hle
      rw [largeCount, if_neg hle, Nat.zero_add] at hi
      obtain ⟨t, ht, hr⟩ := (largeCount_pos_iff rest).mp hi
      exact hle (lt_of_lt_of_le hr (hhead t ht))
    | succ j =>
      simp only [sphAt, List.getD_cons_succ]
      have : j < largeCount rest := by
        rw [largeCount] at hi
        split_ifs at hi <;> omega
      exact ih htail j this

lemma phase1Step_shape (tbl : List Sphere) (frac : ℝ) (acc : List ℕ) (i : ℕ) :
    phase1Step tbl frac acc i = acc ∨ phase1Step tbl frac acc i = acc ++ [i] := by
  rw [phase1Step]
  split_ifs <;> simp

lemma foldl_phase1_mem (tbl : List Sphere) (frac : ℝ) :
    ∀ (L : List ℕ) (acc : List ℕ) (j : ℕ),
      j ∈ L.foldl (phase1Step tbl frac) acc → j ∈ acc ∨ j ∈ L := by
  intro L
  induction L with
  | nil => intro acc j h; exact Or.inl h
  | cons a L ih =>
    intro acc j h
    rw [List.foldl_cons] at h
    rcases ih (phase1Step tbl frac acc a) j h with h1 | h1
    · rcases phase1Step_shape tbl frac acc a with he | he
      · rw [he] at h1
        exact Or.inl h1
      · rw [he, List.mem_append, List.mem_singleton] at h1
        rcases h1 with h1 | rfl
        · exact Or.inl h1
        · exact Or.inr (List.mem_cons_self _ _)
    · exact Or.inr (List.mem_cons_of_mem _ h1)

lemma foldl_phase1_cons_head (tbl : List Sphere) (frac : ℝ) :
    ∀ (L : List ℕ) (a : ℕ) (acc : List ℕ),
      ∃ t, L.foldl (phase1Step tbl frac) (a :: acc) = a :: t := by
  intro L
  induction L with
  | nil => intro a acc; exact ⟨acc, rfl⟩
  | cons b L ih =>
    intro a acc
    rw [List.foldl_cons]
    rcases phase1Step_shape tbl frac (a :: acc) b with he | he
    · rw [he]
      exact ih a acc
    · rw [he]
      exact ih a (acc ++ [b])

lemma maximalIndices_mem (tbl : List Sphere) (frac : ℝ) (j : ℕ)
    (h : j ∈ maximalIndices tbl frac) :
    j = 0 ∨ (1 ≤ j ∧ j < largeCount tbl) := by
  rcases foldl_phase1_mem tbl frac _ _ _ h with h1 | h1
  · left
    simpa using h1
  · right
    rw [List.mem_range'_1] at h1
    omega

lemma mem_upTo (tbl : List Sphere) (frac : ℝ) (i j : ℕ)
    (h : j ∈ maximalIndicesUpTo tbl frac i) : j = 0 ∨ (1 ≤ j ∧ j < i) := by
  rcases foldl_phase1_mem tbl frac _ _ _ h with h1 | h1
  · left
    simpa using h1
  · right
    rw [List.mem_range'_1] at h1
    omega

/-- Splitting the phase-1 loop at iteration `i`: the final index list is the
fold of the remaining iterations applied to the accumulator as it stands
right after processing `i`. -/
lemma maximalIndices_split (tbl : List Sphere) (frac : ℝ) (i : ℕ)
    (h1 : 1 ≤ i) (h2 : i < largeCount tbl) :
    maximalIndices tbl frac =
      (List.range' (i + 1) (largeCount tbl - i - 1)).foldl (phase1Step tbl frac)
        (phase1Step tbl frac (maximalIndicesUpTo tbl frac i) i) := by
  have e1 : (1 : ℕ) + 1 * (i - 1) = i := by omega
  have hsplit := List.range'_append 1 (i - 1) (largeCount tbl - i) 1
  rw [e1] at hsplit
  have e2 : (largeCount tbl - i) + (i - 1) = largeCount tbl - 1 := by omega
  rw [e2] at hsplit
  have e3 : largeCount tbl - i = (largeCount tbl - i - 1) + 1 := by omega
  have hcons : List.range' i (largeCount tbl - i) =
      i :: List.range' (i + 1) (largeCount tbl - i - 1) := by
    conv_lhs => rw [e3]
    rw [List.range'_succ]
  rw [maximalIndices, ← hsplit, List.foldl_append, hcons, List.foldl_cons]
  rfl

/-- If `j` was accepted as maximal and `j < i`, then `j` is already in the
accumulator when iteration `i` runs. -/
lemma mem_upTo_of_mem_maximal (tbl : List Sphere) (frac : ℝ) (i j : ℕ)
    (hji : j < i) (h1 : 1 ≤ i) (h2 : i < largeCount tbl)
    (hj : j ∈ maximalIndices tbl frac) : j ∈ maximalIndicesUpTo tbl frac i := by
  rw [maximalIndices_split tbl frac i h1 h2] at hj
  rcases foldl_phase1_mem tbl frac _ _ _ hj with h | h
  · rcases phase1Step_shape tbl frac (maximalIndicesUpTo tbl frac i) i with he | he
    · rwa [he] at h
    · rw [he, List.mem_append, List.mem_singleton] at h
      rcases h with h | rfl
      · exact h
      · omega
  · rw [List.mem_range'_1] at h
    omega

/-- A sphere strictly contained in an earlier-accepted maximal sphere is
never accepted as maximal. -/
lemma contained_not_maximal (tbl : List Sphere) (frac : ℝ) (i j : ℕ)
    (hj : j ∈ maximalIndices tbl frac) (hji : j < i)
    (hcon : containsS (sphAt tbl j) (sphAt tbl i)) :
    i ∉ maximalIndices tbl frac := by
  intro hi
  have hi1 : 1 ≤ i := by omega
  rcases maximalIndices_mem tbl frac i hi with h | h
  · omega
  have hi2 : i < largeCount tbl := h.2
  have hjU : j ∈ maximalIndicesUpTo tbl frac i :=
    mem_upTo_of_mem_maximal tbl frac i j hji hi1 hi2 hj
  have hstep : phase1Step tbl frac (maximalIndicesUpTo tbl frac i) i =
      maximalIndicesUpTo tbl frac i := by
    rw [phase1Step, if_pos]
    exact ⟨sphAt tbl j, List.mem_map_of_mem (sphAt tbl) hjU, hcon⟩
  rw [maximalIndices_split tbl frac i hi1 hi2, hstep] at hi
  rcases foldl_phase1_mem tbl frac _ _ _ hi with h' | h'
  · rcases mem_upTo tbl frac i i h' with h'' | h'' <;> omega
  · rw [List.mem_range'_1] at h'
    omega

lemma enumFrom_snd_mem {α : Type} :
    ∀ (n : ℕ) (l : List α) (p : ℕ × α), p ∈ List.enumFrom n l → p.2 ∈ l := by
  intro n l
  induction l generalizing n with
  | nil => intro p h; simp [List.enumFrom] at h
  | cons a l ih =>
    intro p h
    rw [List.enumFrom_cons, List.mem_cons] at h
    rcases h with rfl | h
    · exact List.mem_cons_self _ _
    · exact List.mem_cons_of_mem _ (ih (n + 1) p h)

lemma enum_snd_mem {α : Type} (l : List α) (p : ℕ × α) (h : p ∈ l.enum) :
    p.2 ∈ l := enumFrom_snd_mem 0 l p h

/-- Every maximal sphere in the output table has its row index below
`N_large_spheres`, provided at least one sphere is large. -/
lemma maximalTable_mem_radius (tbl : List Sphere) (frac : ℝ)
    (hs : sortedDesc tbl) (hex : ∃ s ∈ tbl, 10 < s.radius) :
    ∀ p ∈ maximalTable tbl frac, 10 < p.1.radius := by
  intro p hp
  rw [maximalTable, List.mem_map] at hp
  obtain ⟨q, hq, rfl⟩ := hp
  have hq2 : q.2 ∈ maximalIndices tbl frac := enum_snd_mem _ q hq
  have hlc : 0 < largeCount tbl := (largeCount_pos_iff tbl).mpr hex
  have : q.2 < largeCount tbl := by
    rcases maximalIndices_mem tbl frac q.2 hq2 with h | h <;> omega
  exact radius_big_of_lt_largeCount tbl hs q.2 this

/-- The maximal-sphere index list always begins with row 0. -/
lemma maximalIndices_head (tbl : List Sphere) (frac : ℝ) :
    ∃ t, maximalIndices tbl frac = 0 :: t :=
  foldl_phase1_cons_head tbl frac _ 0 []

end VoidFinder

open VoidFinder

/-- Claim C1, counterexample: on the sorted one-row table whose only sphere
has radius 5, `combine_holes` still places that sphere in the maximal-sphere
output (row 0 is seeded as a void unconditionally), with flag 1, although
its radius is not above the 10-unit seed threshold. -/
theorem C1_counterexample :
    sortedDesc tblSmall ∧
      maximalTable tblSmall (1 / 10) = [(⟨0, 0, 0, 5⟩, 1)] ∧
      ¬(10 < (5 : ℝ)) := by
  refine ⟨?_, ?_, by norm_num⟩
  · simp [sortedDesc, tblSmall]
  · have hlc : largeCount tblSmall = 0 := by
      simp only [tblSmall, largeCount]
      rw [if_neg (by norm_num)]
    rw [maximalTable, maximalIndices, hlc]
    simp [sphAt, tblSmall]

/-- Claim C1 (amended: provided at least one candidate's radius exceeds the
10-unit threshold): every sphere that `combine_holes` places in the
maximal-sphere output has radius above 10, and the largest qualifying
sphere — row 0 of the descending-sorted table — is always accepted as a
maximal sphere with void id 1 (flag 1). -/
theorem C1_seed_threshold (tbl : List Sphere) (frac : ℝ)
    (hs : sortedDesc tbl) (hex : ∃ s ∈ tbl, 10 < s.radius) :
    (∀ p ∈ maximalTable tbl frac, 10 < p.1.radius) ∧
      (maximalTable tbl frac).head? = some (sphAt tbl 0, 1) := by
  refine ⟨maximalTable_mem_radius tbl frac hs hex, ?_⟩
  obtain ⟨t, ht⟩ := maximalIndices_head tbl frac
  rw [maximalTable, ht]
  simp [List.enum_cons]

/-- Witness for C1: the amended theorem applied to the concrete table
`tblC2`, whose largest sphere has radius 20. -/
theorem C1_seed_threshold_witness :
    sortedDesc tblC2 ∧ (∃ s ∈ tblC2, 10 < s.radius) ∧
      ((∀ p ∈ maximalTable tblC2 (1 / 10), 10 < p.1.radius) ∧
        (maximalTable tblC2 (1 / 10)).head? = some (sphAt tblC2 0, 1)) := by
  have hs : sortedDesc tblC2 := by
    simp only [sortedDesc, tblC2, List.pairwise_cons, List.mem_singleton,
      List.mem_cons]
    refine ⟨?_, ?_, ?_⟩
    · rintro b (rfl | h)
      · norm_num
      · simp at h
    · rintro b h
      simp at h
    · simp
  have hex : ∃ s ∈ tblC2, 10 < s.radius := by
    refine ⟨⟨0, 0, 0, 20⟩, ?_, by norm_num⟩
    simp [tblC2]
  exact ⟨hs, hex, C1_seed_threshold tblC2 (1 / 10) hs hex⟩

/-- Claim C7, counterexample: in the radius-descending table `tblC7`,
sphere `B` (row 2) is fully contained in sphere `A` (row 1):
`d + rB = 18 + 11 ≤ 30 = rA`.  But `A` is rejected as maximal (it overlaps
the maximal sphere `M` by more than `frac = 1/10` of its volume), so `B` is
never tested against `A` and is accepted: the maximal-sphere index list is
`[0, 2]`, i.e. `B` appears in the maximal-sphere output. -/
theorem C7_counterexample :
    sortedDesc tblC7 ∧
      sep (sphAt tblC7 1) (sphAt tblC7 2) + (sphAt tblC7 2).radius ≤
        (sphAt tblC7 1).radius ∧
      maximalIndices tblC7 (1 / 10) = [0, 2] := by
  have e0 : sphAt tblC7 0 = ⟨0, 0, 0, 31⟩ := rfl
  have e1 : sphAt tblC7 1 = ⟨35, 0, 0, 30⟩ := rfl
  have e2 : sphAt tblC7 2 = ⟨53, 0, 0, 11⟩ := rfl
  have hsepMA : sep (⟨0, 0, 0, 31⟩ : Sphere) ⟨35, 0, 0, 30⟩ = 35 := by
    apply sep_eq _ _ 35 (by norm_num)
    norm_num
  have hsepMB : sep (⟨0, 0, 0, 31⟩ : Sphere) ⟨53, 0, 0, 11⟩ = 53 := by
    apply sep_eq _ _ 53 (by norm_num)
    norm_num
  have hsepAB : sep (⟨35, 0, 0, 30⟩ : Sphere) ⟨53, 0, 0, 11⟩ = 18 := by
    apply sep_eq _ _ 18 (by norm_num)
    norm_num
  refine ⟨?_, ?_, ?_⟩
  · simp only [sortedDesc, tblC7, List.pairwise_cons, List.mem_cons,
      List.mem_singleton, List.not_mem_nil, List.Pairwise.nil]
    refine ⟨?_, ?_, ?_⟩
    · rintro b (rfl | rfl | h)
      · norm_num
      · norm_num
      · simp at h
    · rintro b (rfl | h)
      · norm_num
      · simp at h
    · simp
  · rw [e1, e2, hsepAB]
    norm_num
  · have hlc : largeCount tblC7 = 3 := by
      simp only [tblC7, largeCount]
      rw [if_pos (by norm_num : (10:ℝ) < 31), if_pos (by norm_num : (10:ℝ) < 30),
        if_pos (by norm_num : (10:ℝ) < 11)]
    rw [maximalIndices, hlc]
    rw [show List.range' 1 (3 - 1) = [1, 2] from rfl]
    rw [List.foldl_cons, List.foldl_cons, List.foldl_nil]
    have hmap1 : ([0] : List ℕ).map (sphAt tblC7) = [⟨0, 0, 0, 31⟩] := by
      rw [List.map_cons, List.map_nil, e0]
    have hstep1 : phase1Step tblC7 (1 / 10) [0] 1 = [0] := by
      unfold phase1Step
      rw [hmap1, e1]
      rw [if_neg, if_pos, if_neg]
      · intro hall
        have h1 := hall ⟨0, 0, 0, 31⟩ (List.mem_singleton.mpr rfl)
        rw [overlapsS, hsepMA] at h1
        have h2 := h1 (by norm_num)
        rw [overlapVolume, hsepMA] at h2
        unfold spherical_cap_volume cap_height sphere_volume at h2
        simp only at h2
        nlinarith [Real.pi_pos, h2]
      · refine ⟨⟨0, 0, 0, 31⟩, List.mem_singleton.mpr rfl, ?_⟩
        rw [overlapsS, hsepMA]
        norm_num
      · intro hcon
        obtain ⟨m, hm, hc⟩ := hcon
        rw [List.mem_singleton] at hm
        subst hm
        rw [containsS, hsepMA] at hc
        simp only at hc
        norm_num at hc
    rw [hstep1]
    have hstep2 : phase1Step tblC7 (1 / 10) [0] 2 = [0, 2] := by
      unfold phase1Step
      rw [hmap1, e2]
      rw [if_neg, if_neg]
      · rfl
      · intro hov
        obtain ⟨m, hm, ho⟩ := hov
        rw [List.mem_singleton] at hm
        subst hm
        rw [overlapsS, hsepMB] at ho
        simp only at ho
        norm_num at ho
      · intro hcon
        obtain ⟨m, hm, hc⟩ := hcon
        rw [List.mem_singleton] at hm
        subst hm
        rw [containsS, hsepMB] at hc
        simp only at hc
        norm_num at hc
    exact hstep2

/-- Claim C7 (amended): a sphere strictly contained (the source's strict
containment test `maximal.radius - i.radius > distance`) in a sphere that
was itself accepted as maximal and precedes it in the table never appears
in the maximal-sphere output of `combine_holes`. -/
theorem C7_contained_never_maximal (tbl : List Sphere) (frac : ℝ) (i j : ℕ)
    (hj : j ∈ maximalIndices tbl frac) (hji : j < i)
    (hcon : sep (sphAt tbl j) (sphAt tbl i) + (sphAt tbl i).radius <
      (sphAt tbl j).radius) :
    i ∉ maximalIndices tbl frac := by
  apply contained_not_maximal tbl frac i j hj hji
  rw [containsS]
  linarith

/-- Witness for C7: on the table `tblC7w`, row 1 (radius 11, at distance 5
from the center of the maximal row 0 of radius 20) is strictly contained in
row 0 and is excluded from the maximal-sphere output. -/
theorem C7_contained_never_maximal_witness :
    0 ∈ maximalIndices tblC7w (1 / 10) ∧ (0 : ℕ) < 1 ∧
      sep (sphAt tblC7w 0) (sphAt tblC7w 1) + (sphAt tblC7w 1).radius <
        (sphAt tblC7w 0).radius ∧
      1 ∉ maximalIndices tblC7w (1 / 10) := by
  have e0 : sphAt tblC7w 0 = ⟨0, 0, 0, 20⟩ := rfl
  have e1 : sphAt tblC7w 1 = ⟨5, 0, 0, 11⟩ := rfl
  have hsep : sep (⟨0, 0, 0, 20⟩ : Sphere) ⟨5, 0, 0, 11⟩ = 5 := by
    apply sep_eq _ _ 5 (by norm_num)
    norm_num
  have hcon : sep (sphAt tblC7w 0) (sphAt tblC7w 1) + (sphAt tblC7w 1).radius <
      (sphAt tblC7w 0).radius := by
    rw [e0, e1, hsep]
    norm_num
  have hlc : largeCount tblC7w = 2 := by
    simp only [tblC7w, largeCount]
    rw [if_pos (by norm_num : (10:ℝ) < 20), if_pos (by norm_num : (10:ℝ) < 11)]
  have hmax : maximalIndices tblC7w (1 / 10) = [0] := by
    rw [maximalIndices, hlc]
    rw [show List.range' 1 (2 - 1) = [1] from rfl]
    rw [List.foldl_cons, List.foldl_nil]
    unfold phase1Step
    rw [show ([0] : List ℕ).map (sphAt tblC7w) = [⟨0, 0, 0, 20⟩] from by
      rw [List.map_cons, List.map_nil, e0]]
    rw [e1, if_pos]
    refine ⟨⟨0, 0, 0, 20⟩, List.mem_singleton.mpr rfl, ?_⟩
    rw [containsS, hsep]
    norm_num
  refine ⟨by rw [hmax]; exact List.mem_singleton.mpr rfl, by norm_num, hcon, ?_⟩
  exact C7_contained_never_maximal tblC7w (1 / 10) 1 0
    (by rw [hmax]; exact List.mem_singleton.mpr rfl) (by norm_num) hcon

/-- Claim C2: in phase 2 of `combine_holes`, a sphere that is not itself
maximal and is not strictly contained in any maximal sphere appears in the
hole output iff the overlap volume `combine_holes` computes exceeds 50% of
its own volume for exactly one maximal sphere (`bigList` collects the
positions of the overlapping maximal spheres with `overlap_volume >
0.5*volume_i`); it is then assigned that maximal sphere's void id (position
plus one).  For zero or more than one qualifying maximal sphere the sphere
is absent from the hole output. -/
theorem C2_hole_assignment (tbl : List Sphere) (frac : ℝ) (i : ℕ)
    (hlen : i < tbl.length)
    (hnm : i ∉ maximalIndices tbl frac)
    (hnc : ¬∃ m ∈ maximalSpheres tbl frac, containsS m (sphAt tbl i)) :
    (i ∈ holesIndices tbl frac ↔ (bigList tbl frac i).length = 1) ∧
      ((bigList tbl frac i).length = 1 → ∀ k ∈ bigList tbl frac i,
        (sphAt tbl i, k + 1) ∈ holesTable tbl frac) := by
  have hiff : i ∈ holesIndices tbl frac ↔ isHole tbl frac i := by
    rw [holesIndices, List.mem_filter, List.mem_range]
    constructor
    · rintro ⟨_, hd⟩
      exact of_decide_eq_true hd
    · intro h
      exact ⟨hlen, decide_eq_true h⟩
  have hexO : (bigList tbl frac i).length = 1 →
      ∃ m ∈ maximalSpheres tbl frac, overlapsS (sphAt tbl i) m := by
    intro h4
    obtain ⟨a, ha⟩ := List.length_eq_one.mp h4
    have hmem : a ∈ bigList tbl frac i := by
      rw [ha]
      exact List.mem_singleton.mpr rfl
    rw [bigList, List.mem_filter] at hmem
    obtain ⟨hr, hp⟩ := hmem
    have hp' := of_decide_eq_true hp
    rw [List.mem_range] at hr
    have hlen' : a < (maximalSpheres tbl frac).length := by
      rw [maximalSpheres, List.length_map]
      exact hr
    refine ⟨(maximalSpheres tbl frac).getD a default, ?_, hp'.1⟩
    rw [List.getD_eq_getElem _ _ hlen']
    exact List.getElem_mem _
  constructor
  · rw [hiff]
    unfold isHole
    constructor
    · rintro ⟨_, _, _, h4⟩
      exact h4
    · intro h4
      exact ⟨hnm, hnc, hexO h4, h4⟩
  · intro h4 k hk
    obtain ⟨a, ha⟩ := List.length_eq_one.mp h4
    have hka : k = a := by
      rw [ha] at hk
      exact List.mem_singleton.mp hk
    subst hka
    have hihole : i ∈ holesIndices tbl frac := hiff.mpr ⟨hnm, hnc, hexO h4, h4⟩
    rw [holesTable, List.mem_map]
    refine ⟨i, hihole, ?_⟩
    rw [holeFlag, ha]
    rfl

/-- Witness for C2: in `tblC2`, the small sphere (row 1, radius 8) overlaps
the unique maximal sphere (row 0, radius 20) by more than half its own
volume, so it lands in the hole output with that void's flag 1. -/
theorem C2_hole_assignment_witness :
    1 < tblC2.length ∧ 1 ∉ maximalIndices tblC2 (1 / 10) ∧
      ¬(∃ m ∈ maximalSpheres tblC2 (1 / 10), containsS m (sphAt tblC2 1)) ∧
      (bigList tblC2 (1 / 10) 1).length = 1 ∧
      1 ∈ holesIndices tblC2 (1 / 10) ∧
      (sphAt tblC2 1, 1) ∈ holesTable tblC2 (1 / 10) := by
  have e0 : sphAt tblC2 0 = ⟨0, 0, 0, 20⟩ := rfl
  have e1 : sphAt tblC2 1 = ⟨14, 0, 0, 8⟩ := rfl
  have hsep : sep (⟨0, 0, 0, 20⟩ : Sphere) ⟨14, 0, 0, 8⟩ = 14 := by
    apply sep_eq _ _ 14 (by norm_num)
    norm_num
  have hlc : largeCount tblC2 = 1 := by
    simp only [tblC2, largeCount]
    rw [if_pos (by norm_num : (10:ℝ) < 20), if_neg (by norm_num : ¬(10:ℝ) < 8)]
  have hmax : maximalIndices tblC2 (1 / 10) = [0] := by
    rw [maximalIndices, hlc]
    rfl
  have hms : maximalSpheres tblC2 (1 / 10) = [⟨0, 0, 0, 20⟩] := by
    rw [maximalSpheres, hmax]
    rfl
  have hlen : 1 < tblC2.length := by
    simp [tblC2]
  have hnm : 1 ∉ maximalIndices tblC2 (1 / 10) := by
    rw [hmax]
    simp
  have hnc : ¬∃ m ∈ maximalSpheres tblC2 (1 / 10), containsS m (sphAt tblC2 1) := by
    rw [hms, e1]
    rintro ⟨m, hm, hc⟩
    rw [List.mem_singleton] at hm
    subst hm
    rw [containsS, hsep] at hc
    simp only at hc
    norm_num at hc
  have hblist : bigList tblC2 (1 / 10) 1 = [0] := by
    rw [bigList, hmax, hms, e1]
    rw [show List.range ([0] : List ℕ).length = [0] from rfl]
    rw [List.filter_singleton]
    have hpred : overlapsS (⟨14, 0, 0, 8⟩ : Sphere)
        (([(⟨0, 0, 0, 20⟩ : Sphere)]).getD 0 default) ∧
        overlapVolume (⟨14, 0, 0, 8⟩ : Sphere)
            (([(⟨0, 0, 0, 20⟩ : Sphere)]).getD 0 default) >
          0.5 * sphere_volume (⟨14, 0, 0, 8⟩ : Sphere).radius := by
      constructor
      · show overlapsS (⟨14, 0, 0, 8⟩ : Sphere) (⟨0, 0, 0, 20⟩ : Sphere)
        rw [overlapsS, hsep]
        norm_num
      · show overlapVolume (⟨14, 0, 0, 8⟩ : Sphere) (⟨0, 0, 0, 20⟩ : Sphere) >
          0.5 * sphere_volume (⟨14, 0, 0, 8⟩ : Sphere).radius
        rw [overlapVolume, hsep]
        unfold spherical_cap_volume cap_height sphere_volume
        simp only
        nlinarith [Real.pi_pos]
    rw [decide_eq_true hpred]
    rfl
  have hcount : (bigList tblC2 (1 / 10) 1).length = 1 := by
    rw [hblist]
    rfl
  have H := C2_hole_assignment tblC2 (1 / 10) 1 hlen hnm hnc
  refine ⟨hlen, hnm, hnc, hcount, H.1.mpr hcount, ?_⟩
  have := H.2 hcount 0 (by rw [hblist]; exact List.mem_singleton.mpr rfl)
  simpa using this

lemma cap_height_tangent (R r d : ℝ) (h : d = r + R) : cap_height R r d = 0 := by
  rw [cap_height, h]
  ring_nf

lemma spherical_cap_volume_zero (ρ : ℝ) : spherical_cap_volume ρ 0 = 0 := by
  rw [spherical_cap_volume]
  ring

lemma overlapVolume_tangent (s m : Sphere) (hd : sep m s = s.radius + m.radius) :
    overlapVolume s m = 0 := by
  rw [overlapVolume, cap_height_tangent _ _ _ (by rw [hd]; ring),
    cap_height_tangent _ _ _ (by rw [hd]),
    spherical_cap_volume_zero, spherical_cap_volume_zero]
  ring

/-- Claim C8: for an input of exactly three equal-radius, pairwise mutually
tangent spheres (each pairwise center distance equal to the sum of the two
radii, hence zero overlap volume), each with radius above the 10-unit seed
threshold, `combine_holes` with `frac = 1/10` returns exactly three maximal
spheres with flags 1, 2, 3 and an empty hole table. -/
theorem C8_tangent_triple (r : ℝ) (s1 s2 s3 : Sphere) (hr : 10 < r)
    (h1 : s1.radius = r) (h2 : s2.radius = r) (h3 : s3.radius = r)
    (d12 : sep s1 s2 = 2 * r) (d13 : sep s1 s3 = 2 * r) (d23 : sep s2 s3 = 2 * r) :
    combine_holes [s1, s2, s3] (1 / 10) = ([(s1, 1), (s2, 2), (s3, 3)], []) := by
  have hr0 : (0:ℝ) < r := by linarith
  have e0 : sphAt [s1, s2, s3] 0 = s1 := rfl
  have e1 : sphAt [s1, s2, s3] 1 = s2 := rfl
  have e2 : sphAt [s1, s2, s3] 2 = s3 := rfl
  have hlc : largeCount [s1, s2, s3] = 3 := by
    simp only [largeCount]
    rw [if_pos (by rw [h1]; exact hr), if_pos (by rw [h2]; exact hr),
      if_pos (by rw [h3]; exact hr)]
  have hmax : maximalIndices [s1, s2, s3] (1 / 10) = [0, 1, 2] := by
    rw [maximalIndices, hlc]
    rw [show List.range' 1 (3 - 1) = [1, 2] from rfl]
    rw [List.foldl_cons, List.foldl_cons, List.foldl_nil]
    have hstep1 : phase1Step [s1, s2, s3] (1 / 10) [0] 1 = [0, 1] := by
      unfold phase1Step
      rw [show ([0] : List ℕ).map (sphAt [s1, s2, s3]) = [s1] from rfl, e1]
      rw [if_neg, if_pos, if_pos]
      · rfl
      · intro m hm _
        rw [List.mem_singleton] at hm
        rw [hm, overlapVolume_tangent s2 s1 (by rw [d12, h2, h1]; ring)]
        rw [h2, sphere_volume]
        positivity
      · refine ⟨s1, List.mem_singleton.mpr rfl, ?_⟩
        rw [overlapsS, d12, h1, h2]
        linarith
      · rintro ⟨m, hm, hc⟩
        rw [List.mem_singleton] at hm
        rw [hm, containsS, d12, h1, h2] at hc
        linarith
    rw [hstep1]
    have hstep2 : phase1Step [s1, s2, s3] (1 / 10) [0, 1] 2 = [0, 1, 2] := by
      unfold phase1Step
      rw [show ([0, 1] : List ℕ).map (sphAt [s1, s2, s3]) = [s1, s2] from rfl, e2]
      rw [if_neg, if_pos, if_pos]
      · rfl
      · intro m hm _
        rcases List.mem_cons.mp hm with hme | hm
        · rw [hme, overlapVolume_tangent s3 s1 (by rw [d13, h3, h1]; ring)]
          rw [h3, sphere_volume]
          positivity
        · rw [List.mem_singleton] at hm
          rw [hm, overlapVolume_tangent s3 s2 (by rw [d23, h3, h2]; ring)]
          rw [h3, sphere_volume]
          positivity
      · refine ⟨s1, List.mem_cons_self _ _, ?_⟩
        rw [overlapsS, d13, h1, h3]
        linarith
      · rintro ⟨m, hm, hc⟩
        rcases List.mem_cons.mp hm with hme | hm
        · rw [hme, containsS, d13, h1, h3] at hc
          linarith
        · rw [List.mem_singleton] at hm
          rw [hm, containsS, d23, h2, h3] at hc
          linarith
    exact hstep2
  have hholes : holesIndices [s1, s2, s3] (1 / 10) = [] := by
    rw [holesIndices]
    apply List.filter_eq_nil_iff.mpr
    intro a ha
    rw [List.mem_range] at ha
    simp only [List.length_cons, List.length_nil] at ha
    simp only [decide_eq_true_eq]
    intro hhole
    apply hhole.1
    rw [hmax]
    interval_cases a <;> simp
  have htable : maximalTable [s1, s2, s3] (1 / 10) = [(s1, 1), (s2, 2), (s3, 3)] := by
    rw [maximalTable, hmax]
    rfl
  have hht : holesTable [s1, s2, s3] (1 / 10) = [] := by
    rw [holesTable, hholes]
    rfl
  rw [combine_holes, htable, hht]

/-- Witness for C8: the concrete tangent triple `tg1, tg2, tg3` (radius
`10·√2 > 10`, centers `(20,0,0)`, `(0,20,0)`, `(0,0,20)`, pairwise center
distance `20·√2 = 2r`). -/
theorem C8_tangent_triple_witness :
    10 < tangentR ∧ sep tg1 tg2 = 2 * tangentR ∧ sep tg1 tg3 = 2 * tangentR ∧
      sep tg2 tg3 = 2 * tangentR ∧
      combine_holes [tg1, tg2, tg3] (1 / 10) =
        ([(tg1, 1), (tg2, 2), (tg3, 3)], []) := by
  have hs2 : (1 : ℝ) < Real.sqrt 2 := by
    have h := Real.sqrt_lt_sqrt (by norm_num : (0:ℝ) ≤ 1) (by norm_num : (1:ℝ) < 2)
    rwa [Real.sqrt_one] at h
  have hr : 10 < tangentR := by
    rw [tangentR]
    nlinarith [hs2]
  have hpos : (0:ℝ) ≤ 2 * tangentR := by
    rw [tangentR]
    nlinarith [Real.sqrt_nonneg 2]
  have hsq : (2 * tangentR) ^ 2 = 800 := by
    rw [tangentR]
    have h2 : Real.sqrt 2 ^ 2 = 2 := Real.sq_sqrt (by norm_num)
    nlinarith [h2]
  have d12 : sep tg1 tg2 = 2 * tangentR := by
    apply sep_eq _ _ _ hpos
    rw [hsq]
    show ((20:ℝ) - 0) ^ 2 + ((0:ℝ) - 20) ^ 2 + ((0:ℝ) - 0) ^ 2 = 800
    norm_num
  have d13 : sep tg1 tg3 = 2 * tangentR := by
    apply sep_eq _ _ _ hpos
    rw [hsq]
    show ((20:ℝ) - 0) ^ 2 + ((0:ℝ) - 0) ^ 2 + ((0:ℝ) - 20) ^ 2 = 800
    norm_num
  have d23 : sep tg2 tg3 = 2 * tangentR := by
    apply sep_eq _ _ _ hpos
    rw [hsq]
    show ((0:ℝ) - 0) ^ 2 + ((20:ℝ) - 0) ^ 2 + ((0:ℝ) - 20) ^ 2 = 800
    norm_num
  exact ⟨hr, d12, d13, d23,
    C8_tangent_triple tangentR tg1 tg2 tg3 hr rfl rfl rfl d12 d13 d23⟩

/-- Claim C9, counterexample: `combine_holes` performs no degenerate-geometry
detection.  On the sorted table `tblDup` holding two identical spheres
(coincident centers, radius 20), iteration 1 of phase 1 passes the
containment test (`0 > 0` is false), finds an overlap (`0 ≤ 40`), and then
evaluates `cap_height` with center distance `d = 0`: the input is processed,
not rejected. -/
theorem C9_counterexample :
    sortedDesc tblDup ∧
      center (sphAt tblDup 0) = center (sphAt tblDup 1) ∧
      callsCapHeightZeroSep tblDup (1 / 10) := by
  have e0 : sphAt tblDup 0 = ⟨0, 0, 0, 20⟩ := rfl
  have e1 : sphAt tblDup 1 = ⟨0, 0, 0, 20⟩ := rfl
  have hsep : sep (⟨0, 0, 0, 20⟩ : Sphere) ⟨0, 0, 0, 20⟩ = 0 := by
    apply sep_eq _ _ 0 le_rfl
    norm_num
  refine ⟨?_, by rw [e0, e1], ?_⟩
  · simp only [sortedDesc, tblDup, List.pairwise_cons, List.mem_singleton,
      List.not_mem_nil, List.Pairwise.nil]
    refine ⟨?_, ?_, ?_⟩
    · rintro b rfl
      norm_num
    · rintro b h
      simp at h
    · simp
  · left
    have hlc : largeCount tblDup = 2 := by
      simp only [tblDup, largeCount]
      norm_num
    have hupto : (maximalIndicesUpTo tblDup (1 / 10) 1).map (sphAt tblDup) =
        [⟨0, 0, 0, 20⟩] := by
      rw [maximalIndicesUpTo]
      rfl
    refine ⟨1, le_refl 1, by rw [hlc]; norm_num, ?_, ?_⟩
    · rw [hupto, e1]
      rintro ⟨m, hm, hc⟩
      rw [List.mem_singleton] at hm
      rw [hm, containsS, hsep] at hc
      simp only at hc
      norm_num at hc
    · rw [hupto, e1]
      refine ⟨⟨0, 0, 0, 20⟩, List.mem_singleton.mpr rfl, ?_, hsep⟩
      rw [overlapsS, hsep]
      norm_num

/-- Claim C9 (amended): `combine_holes` itself neither detects nor rejects
coincident centers (see the counterexample); what does hold is that on any
input whose rows have pairwise distinct centers, `cap_height` is never
evaluated with zero center distance `d = 0`, because every `cap_height` call
compares two distinct rows of the table. -/
theorem C9_no_zero_sep (tbl : List Sphere) (frac : ℝ)
    (hd : distinctCenters tbl) : ¬callsCapHeightZeroSep tbl frac := by
  rintro (⟨i, hi1, hi2, _, ⟨m, hm, _, hsep0⟩⟩ | ⟨i, hi, hnm, _, ⟨m, hm, _, hsep0⟩⟩)
  · rw [List.mem_map] at hm
    obtain ⟨j, hjU, rfl⟩ := hm
    have hji : j < i := by
      rcases mem_upTo tbl frac i j hjU with rfl | h <;> omega
    have hilen : i < tbl.length := lt_of_lt_of_le hi2 (largeCount_le_length tbl)
    have hc := hd j i (by omega) hilen (by omega)
    exact hc ((sep_eq_zero_iff _ _).mp hsep0)
  · rw [maximalSpheres, List.mem_map] at hm
    obtain ⟨j, hjM, rfl⟩ := hm
    have hji : j ≠ i := by
      intro h
      rw [h] at hjM
      exact hnm hjM
    have hjlen : j < tbl.length := by
      rcases maximalIndices_mem tbl frac j hjM with rfl | h
      · omega
      · have := largeCount_le_length tbl
        omega
    have hc := hd j i hjlen hi hji
    exact hc ((sep_eq_zero_iff _ _).mp hsep0)

/-- Witness for C9: the table `tblC2` has pairwise distinct centers, so
`combine_holes` never evaluates `cap_height` at zero center distance on it. -/
theorem C9_no_zero_sep_witness :
    distinctCenters tblC2 ∧ ¬callsCapHeightZeroSep tblC2 (1 / 10) := by
  have hd : distinctCenters tblC2 := by
    intro i j hi hj hij
    simp only [tblC2, List.length_cons, List.length_nil] at hi hj
    interval_cases i <;> interval_cases j <;>
      simp_all [center, sphAt, tblC2, Prod.ext_iff]
  exact ⟨hd, C9_no_zero_sep tblC2 (1 / 10) hd⟩

open Vsquared

/-- Claim C5: calling `sortVoids` with `method=3` always aborts with an
error and sets no void attributes (modelled as `Except.error`, never `ok`);
when the prevoids stage is present (so the stage guard is passed), the
error is the explicit unsupported-method message "Method 3 coming soon". -/
theorem C5_method3_unsupported (Pf isf : ℝ → ℝ) (s : ZobovState) (minsig dc : ℝ) :
    (∃ e, sortVoids Pf isf s 3 minsig dc = Except.error e) ∧
      (s.prevoids.isSome →
        sortVoids Pf isf s 3 minsig dc = Except.error "Method 3 coming soon") := by
  rcases hp : s.prevoids with _ | pv
  · constructor
    · exact ⟨"Run all stages of Zobov first", by simp [sortVoids, hp]⟩
    · intro hs
      simp at hs
  · constructor
    · exact ⟨"Method 3 coming soon", by simp [sortVoids, selectVoids, hp]⟩
    · intro _
      simp [sortVoids, selectVoids, hp]

/-- Witness for C5: on the full-pipeline state `exState0`, method 3 yields
exactly the unsupported-method error. -/
theorem C5_method3_unsupported_witness :
    exState0.prevoids.isSome ∧
      sortVoids id id exState0 3 2 (1 / 5) =
        Except.error "Method 3 coming soon" :=
  ⟨rfl, (C5_method3_unsupported id id exState0 2 (1 / 5)).2 rfl⟩

/-- Claim C10: `sortVoids` with any method other than 4 requires the
prevoids stage — without it, it returns early with the stage-guard message
and no attributes set; with `method=4` only the zones stage is required, so
method-4 sorting succeeds (returns `ok`) on a state whose pipeline stopped
after zone generation. -/
theorem C10_stage_guard (Pf isf : ℝ → ℝ) (s : ZobovState) (m : ℕ)
    (minsig dc : ℝ) :
    (s.prevoids = none → m ≠ 4 →
      sortVoids Pf isf s m minsig dc =
        Except.error "Run all stages of Zobov first") ∧
    (s.prevoids = none → s.zones.isSome →
      ∃ run, sortVoids Pf isf s 4 minsig dc = Except.ok run) := by
  constructor
  · intro hp hm
    simp [sortVoids, hp, hm]
  · intro hp hz
    rcases hzs : s.zones with _ | z
    · rw [hzs] at hz
      simp at hz
    · refine ⟨postProcess s 4 dc ((List.range z.zvols.length).map fun i => [i]), ?_⟩
      simp [sortVoids, selectVoids, hp, hzs]

/-- Witness for C10: on `exState` (zones present, prevoids absent), method 0
aborts with the stage-guard message while method 4 succeeds. -/
theorem C10_stage_guard_witness :
    exState.prevoids = none ∧ (0 : ℕ) ≠ 4 ∧ exState.zones.isSome ∧
      sortVoids id id exState 0 2 (1 / 5) =
        Except.error "Run all stages of Zobov first" ∧
      (∃ run, sortVoids id id exState 4 2 (1 / 5) = Except.ok run) :=
  ⟨rfl, by norm_num, rfl,
    (C10_stage_guard id id exState 0 2 (1 / 5)).1 rfl (by norm_num),
    (C10_stage_guard id id exState 4 2 (1 / 5)).2 rfl rfl⟩

namespace Vsquared

lemma applyMask_cons {α : Type} (b : Bool) (mask : List Bool) (x : α)
    (xs : List α) :
    applyMask (b :: mask) (x :: xs) = (cond b [x] []) ++ applyMask mask xs := by
  cases b <;> rfl

lemma applyMask_map_decide {α : Type} (p : α → Prop) (xs : List α) :
    applyMask (xs.map fun x => decide (p x)) xs = xs.filter fun x => decide (p x) := by
  induction xs with
  | nil => rfl
  | cons a xs ih =>
    rw [List.map_cons, applyMask_cons, ih, List.filter_cons]
    cases h : decide (p a) <;> simp

lemma vradOf_ball (r : ℝ) (hr : 0 ≤ r) : vradOf (4 / 3 * Real.pi * r ^ 3) = r := by
  rw [vradOf]
  have h1 : 4 / 3 * Real.pi * r ^ 3 * 3 / (4 * Real.pi) = r ^ 3 := by
    field_simp
  rw [h1, ← Real.rpow_natCast r 3, ← Real.rpow_mul hr]
  norm_num

lemma insertLe_nil (x : ℝ) : insertLe x [] = [x] := rfl

lemma insertLe_of_le (x y : ℝ) (ys : List ℝ) (h : x ≤ y) :
    insertLe x (y :: ys) = x :: y :: ys := by
  simp only [insertLe]
  rw [if_pos h]

lemma npMedian123 : npMedian [(1 : ℝ), 2, 3] = 2 := by
  have hsort : sortAsc [(1 : ℝ), 2, 3] = [1, 2, 3] := by
    rw [sortAsc, List.foldr_cons, List.foldr_cons, List.foldr_cons,
      List.foldr_nil, insertLe_nil, insertLe_of_le 2 3 [] (by norm_num),
      insertLe_of_le 1 2 [3] (by norm_num)]
  rw [npMedian, if_pos (by simp : [(1 : ℝ), 2, 3].length % 2 = 1), hsort]
  rfl

lemma exRun_eq : sortVoids id id exState 4 2 (1 / 5) = .ok exRun := rfl

lemma exRun_vradsPre_raw :
    (vvolsOf exState.tesselation
      (vcutsOf (exState.zones.getD default) [[0], [1], [2]])).map vradOf =
      [(1 : ℝ), 2, 3] := by
  have hvvols : vvolsOf exState.tesselation
      (vcutsOf (exState.zones.getD default) [[0], [1], [2]]) =
      [4 / 3 * Real.pi * 1 ^ 3, 4 / 3 * Real.pi * 2 ^ 3,
        4 / 3 * Real.pi * 3 ^ 3] := by
    simp [vvolsOf, selectIdx, vcutsOf, exState]
  rw [hvvols, List.map_cons, List.map_cons, List.map_cons, List.map_nil,
    vradOf_ball 1 (by norm_num), vradOf_ball 2 (by norm_num),
    vradOf_ball 3 (by norm_num)]

lemma exRun_vradsPre : exRun.vradsPre = [(1 : ℝ), 2, 3] := exRun_vradsPre_raw

lemma exRun_minrad : exRun.minradOut = 2 := by
  show (if (4 : ℕ) = 4 then
      npMedian ((vvolsOf exState.tesselation
        (vcutsOf (exState.zones.getD default) [[0], [1], [2]])).map vradOf)
    else exState.minrad) = 2
  rw [if_pos rfl, exRun_vradsPre_raw, npMedian123]

lemma exRun_vrads : exRun.vrads = [(3 : ℝ)] := by
  show applyMask
      (((vvolsOf exState.tesselation
          (vcutsOf (exState.zones.getD default) [[0], [1], [2]])).map vradOf).map
        fun r => decide (npMedian ((vvolsOf exState.tesselation
          (vcutsOf (exState.zones.getD default) [[0], [1], [2]])).map vradOf) < r))
      ((vvolsOf exState.tesselation
        (vcutsOf (exState.zones.getD default) [[0], [1], [2]])).map vradOf) = [3]
  rw [exRun_vradsPre_raw, npMedian123, List.map_cons, List.map_cons,
    List.map_cons, List.map_nil,
    decide_eq_false (by norm_num : ¬((2 : ℝ) < 1)),
    decide_eq_false (by norm_num : ¬((2 : ℝ) < 2)),
    decide_eq_true (by norm_num : ((2 : ℝ) < 3))]
  rfl

lemma exRun_voidsF : exRun.voidsF = [[2]] := by
  show applyMask
      (((vvolsOf exState.tesselation
          (vcutsOf (exState.zones.getD default) [[0], [1], [2]])).map vradOf).map
        fun r => decide (npMedian ((vvolsOf exState.tesselation
          (vcutsOf (exState.zones.getD default) [[0], [1], [2]])).map vradOf) < r))
      [[0], [1], [2]] = [[2]]
  rw [exRun_vradsPre_raw, npMedian123, List.map_cons, List.map_cons,
    List.map_cons, List.map_nil,
    decide_eq_false (by norm_num : ¬((2 : ℝ) < 1)),
    decide_eq_false (by norm_num : ¬((2 : ℝ) < 2)),
    decide_eq_true (by norm_num : ((2 : ℝ) < 3))]
  rfl

lemma exRun_zvoid : exRun.zvoid = [(-1, -1), (-1, -1), (0, 0)] := by
  show buildZvoid (exState.zones.getD default).zvols.length
      (applyMask
        (((vvolsOf exState.tesselation
            (vcutsOf (exState.zones.getD default) [[0], [1], [2]])).map vradOf).map
          fun r => decide (npMedian ((vvolsOf exState.tesselation
            (vcutsOf (exState.zones.getD default) [[0], [1], [2]])).map vradOf) < r))
        [[0], [1], [2]]) = [(-1, -1), (-1, -1), (0, 0)]
  rw [exRun_vradsPre_raw, npMedian123, List.map_cons, List.map_cons,
    List.map_cons, List.map_nil,
    decide_eq_false (by norm_num : ¬((2 : ℝ) < 1)),
    decide_eq_false (by norm_num : ¬((2 : ℝ) < 2)),
    decide_eq_true (by norm_num : ((2 : ℝ) < 3))]
  rfl

end Vsquared

namespace Vsquared

lemma postProcess_m4_fields (s : ZobovState) (dc : ℝ) (voids : List (List ℕ)) :
    (postProcess s 4 dc voids).minradOut =
      npMedian (postProcess s 4 dc voids).vradsPre ∧
    (postProcess s 4 dc voids).vrads =
      (postProcess s 4 dc voids).vradsPre.filter
        fun r => decide (npMedian (postProcess s 4 dc voids).vradsPre < r) := by
  constructor
  · rfl
  · exact applyMask_map_decide
      (fun r => npMedian (postProcess s 4 dc voids).vradsPre < r)
      (postProcess s 4 dc voids).vradsPre

end Vsquared

/-- Claim C3 (amended: ties at the exact median are *excluded*, since the
radius filter is the strict `vrads > self.minrad`): when `sortVoids` runs
with `method=4` and succeeds, `minrad` is set to the median of the effective
radii of all pre-filter candidates, every emitted void radius is strictly
greater than that median, and a candidate radius exactly equal to the median
is absent from the output radii. -/
theorem C3_median_cut (Pf isf : ℝ → ℝ) (s : ZobovState) (minsig dc : ℝ)
    (run : RunData) (hok : sortVoids Pf isf s 4 minsig dc = Except.ok run) :
    run.minradOut = npMedian run.vradsPre ∧
      (∀ r ∈ run.vrads, run.minradOut < r) ∧
      (∀ r ∈ run.vradsPre, r = run.minradOut → r ∉ run.vrads) := by
  rw [sortVoids] at hok
  split_ifs at hok
  cases hsel : selectVoids Pf isf s 4 minsig dc with
  | error e =>
    rw [hsel] at hok
    simp at hok
  | ok voids =>
    rw [hsel] at hok
    simp only [Except.ok.injEq] at hok
    subst hok
    refine ⟨(postProcess_m4_fields s dc voids).1, ?_, ?_⟩
    · intro r hr
      rw [(postProcess_m4_fields s dc voids).2, List.mem_filter] at hr
      rw [(postProcess_m4_fields s dc voids).1]
      exact of_decide_eq_true hr.2
    · intro r _ hre hc
      rw [(postProcess_m4_fields s dc voids).2, List.mem_filter] at hc
      have hlt := of_decide_eq_true hc.2
      rw [(postProcess_m4_fields s dc voids).1] at hre
      rw [hre] at hlt
      exact lt_irrefl _ hlt

/-- Claim C3, counterexample: on `exState` with `method=4` the pre-filter
candidate radii are `[1, 2, 3]`, the median (and new `minrad`) is `2`, and
the emitted radii are `[3]`: the candidate whose radius exactly equals the
median is *excluded* from the output, contradicting the claim that such
ties are included. -/
theorem C3_counterexample :
    sortVoids id id exState 4 2 (1 / 5) = Except.ok exRun ∧
      exRun.vradsPre = [(1 : ℝ), 2, 3] ∧ exRun.minradOut = 2 ∧
      npMedian exRun.vradsPre = 2 ∧ (2 : ℝ) ∈ exRun.vradsPre ∧
      exRun.vrads = [(3 : ℝ)] ∧ (2 : ℝ) ∉ exRun.vrads :=
  ⟨exRun_eq, exRun_vradsPre, exRun_minrad,
    by rw [exRun_vradsPre]; exact npMedian123,
    by rw [exRun_vradsPre]; simp,
    exRun_vrads,
    by rw [exRun_vrads]; norm_num⟩

/-- Witness for C3: the amended theorem applied to the method-4 run on
`exState`. -/
theorem C3_median_cut_witness :
    sortVoids id id exState 4 2 (1 / 5) = Except.ok exRun ∧
      (exRun.minradOut = npMedian exRun.vradsPre ∧
        (∀ r ∈ exRun.vrads, exRun.minradOut < r) ∧
        (∀ r ∈ exRun.vradsPre, r = exRun.minradOut → r ∉ exRun.vrads)) :=
  ⟨exRun_eq, C3_median_cut id id exState 2 (1 / 5) exRun exRun_eq⟩

namespace Vsquared

lemma videGo_take (vl : List ℝ) (groups : List (List ℕ)) (minvol : ℝ) :
    ∀ L : List ℕ, videGo vl groups minvol L =
      ((L.take (videStopGo vl minvol L)).map fun j => groups.getD j []).flatten := by
  intro L
  induction L with
  | nil => rfl
  | cons j js ih =>
    simp only [videGo, videStopGo]
    split_ifs with h
    · simp
    · rw [ih, Nat.add_comm 1 (videStopGo vl minvol js), List.take_succ_cons,
        List.map_cons, List.flatten_cons]

lemma videStopGo_le (vl : List ℝ) (minvol : ℝ) :
    ∀ L : List ℕ, videStopGo vl minvol L ≤ L.length := by
  intro L
  induction L with
  | nil => simp [videStopGo]
  | cons j js ih =>
    simp only [videStopGo, List.length_cons]
    split_ifs with h
    · omega
    · omega

lemma videStopGo_no_break (vl : List ℝ) (minvol : ℝ) :
    ∀ (L : List ℕ) (m : ℕ), m < videStopGo vl minvol L →
      ¬(0 < L.getD m 0 ∧ vl.getD (L.getD m 0) 0 < minvol) := by
  intro L
  induction L with
  | nil =>
    intro m hm
    simp [videStopGo] at hm
  | cons j js ih =>
    intro m hm
    simp only [videStopGo] at hm
    split_ifs at hm with h
    · omega
    · cases m with
      | zero => simpa using h
      | succ m' =>
        have := ih m' (by omega)
        simpa using this

lemma videStopGo_ge (vl : List ℝ) (minvol : ℝ) :
    ∀ (L : List ℕ) (k : ℕ), k ≤ L.length →
      (∀ m, m < k → ¬(0 < L.getD m 0 ∧ vl.getD (L.getD m 0) 0 < minvol)) →
      k ≤ videStopGo vl minvol L := by
  intro L
  induction L with
  | nil =>
    intro k hk _
    simp only [List.length_nil, Nat.le_zero] at hk
    simp [videStopGo, hk]
  | cons j js ih =>
    intro k hk hno
    cases k with
    | zero => omega
    | succ k' =>
      simp only [videStopGo]
      split_ifs with h
      · exact absurd h (by simpa using hno 0 (by omega))
      · have hk' : k' ≤ videStopGo vl minvol js := by
          apply ih k' (by simpa using hk)
          intro m hm
          have := hno (m + 1) (by omega)
          simpa using this
        omega

lemma range_getD (n m : ℕ) (h : m < n) : (List.range n).getD m 0 = m := by
  rw [List.getD_eq_getElem _ _ (by simpa using h)]
  simp

lemma range_map_getD_fn {α : Type} (f : ℕ → α) (n i : ℕ) (d : α) (h : i < n) :
    ((List.range n).map f).getD i d = f i := by
  rw [List.getD_eq_getElem _ _ (by simpa using h)]
  simp

lemma range_map_getD (groups : List (List ℕ)) (k : ℕ) (hk : k ≤ groups.length) :
    (List.range k).map (fun j => groups.getD j []) = groups.take k := by
  induction k with
  | zero => simp
  | succ k ih =>
    rw [List.range_succ, List.map_append, ih (by omega), List.map_cons,
      List.map_nil, List.take_succ]
    congr 1
    rw [List.getD_eq_getElem _ _ (by omega)]
    simp [List.getElem?_eq_getElem (show k < groups.length by omega)]

/-- The method-0 loop is the concatenation of the first `videStopIdx` merge
levels, provided the hierarchy shape `len(ovols[i]) = len(voids[i]) + 1`
holds. -/
lemma videBuff_take (vl : List ℝ) (groups : List (List ℕ)) (minvol : ℝ)
    (hlen : vl.length = groups.length + 1) :
    videBuff vl groups minvol =
      (groups.take (videStopIdx vl minvol)).flatten := by
  rw [videBuff, videStopIdx, videGo_take]
  have hle : videStopGo vl minvol (List.range (vl.length - 1)) ≤ vl.length - 1 := by
    have := videStopGo_le vl minvol (List.range (vl.length - 1))
    simpa using this
  rw [List.take_range, Nat.min_eq_left hle, range_map_getD groups _ (by omega)]

end Vsquared

/-- Claim C4: for `sortVoids` with `method=0`, each zone-hierarchy entry's
selected cell list is exactly the concatenation, in level order, of its
merge-level cell groups up to the loop's stopping level `videStopIdx`
(under the hierarchy shape `len(ovols[i]) = len(voids[i]) + 1`): every
iterated level before the stopping level has volume at or above
`mean_cell_volume/dc`, the first level is always included regardless of its
volume, and — when the entry's volumes are nonincreasing — every level with
volume at or above the bound lies before the stopping level, i.e. is
accumulated. -/
theorem C4_vide_accumulation (Pf isf : ℝ → ℝ) (s : ZobovState) (minsig dc : ℝ)
    (run : RunData) (pv : Prevoids) (hpv : s.prevoids = some pv)
    (hok : sortVoids Pf isf s 0 minsig dc = Except.ok run)
    (i : ℕ) (hi : i < pv.ovols.length)
    (hshape : (pv.ovols.getD i []).length = (pv.voids.getD i []).length + 1) :
    run.voidsSel.getD i [] =
      ((pv.voids.getD i []).take
        (videStopIdx (pv.ovols.getD i []) (minvol0 s.tesselation dc))).flatten ∧
      (0 < (pv.voids.getD i []).length →
        1 ≤ videStopIdx (pv.ovols.getD i []) (minvol0 s.tesselation dc)) ∧
      (∀ j, 0 < j →
        j < videStopIdx (pv.ovols.getD i []) (minvol0 s.tesselation dc) →
        minvol0 s.tesselation dc ≤ (pv.ovols.getD i []).getD j 0) ∧
      ((pv.ovols.getD i []).Pairwise (fun a b => b ≤ a) →
        ∀ j, j < (pv.voids.getD i []).length →
          minvol0 s.tesselation dc ≤ (pv.ovols.getD i []).getD j 0 →
          j < videStopIdx (pv.ovols.getD i []) (minvol0 s.tesselation dc)) := by
  have hsel : selectVoids Pf isf s 0 minsig dc =
      Except.ok (videVoids pv (minvol0 s.tesselation dc)) := by
    rw [selectVoids, if_pos rfl, hpv]
    rfl
  rw [sortVoids] at hok
  split_ifs at hok
  rw [hsel] at hok
  simp only [Except.ok.injEq] at hok
  subst hok
  have hvsel : (postProcess s 0 dc
      (videVoids pv (minvol0 s.tesselation dc))).voidsSel =
      videVoids pv (minvol0 s.tesselation dc) := rfl
  refine ⟨?_, ?_, ?_, ?_⟩
  · rw [hvsel, videVoids, range_map_getD_fn _ _ _ _ hi]
    exact videBuff_take _ _ _ hshape
  · intro hgr
    rw [videStopIdx]
    apply videStopGo_ge
    · rw [List.length_range]
      omega
    · intro m hm
      have hm0 : m = 0 := by omega
      subst hm0
      rw [range_getD _ _ (by omega)]
      simp
  · intro j hj0 hjs
    have hle := videStopGo_le (pv.ovols.getD i []) (minvol0 s.tesselation dc)
      (List.range ((pv.ovols.getD i []).length - 1))
    rw [videStopIdx] at hjs
    have hjn : j < (pv.ovols.getD i []).length - 1 := by
      simp only [List.length_range] at hle
      omega
    have hnb := videStopGo_no_break (pv.ovols.getD i []) (minvol0 s.tesselation dc)
      (List.range ((pv.ovols.getD i []).length - 1)) j hjs
    rw [range_getD _ _ hjn] at hnb
    push_neg at hnb
    exact hnb hj0
  · intro hpw j hj hjvol
    rw [videStopIdx]
    have hjn : j + 1 ≤ (pv.ovols.getD i []).length - 1 := by omega
    have hlt : j < (pv.ovols.getD i []).length := by omega
    apply Nat.lt_of_lt_of_le (Nat.lt_succ_self j)
    apply videStopGo_ge
    · simpa using hjn
    · intro m hm
      rw [range_getD _ _ (by omega)]
      rintro ⟨hm0, hmlt⟩
      have hmj : m ≤ j := by omega
      have hmvl : minvol0 s.tesselation dc ≤ (pv.ovols.getD i []).getD m 0 := by
        rcases Nat.lt_or_ge m j with hmj' | hmj'
        · have hml : m < (pv.ovols.getD i []).length := by omega
          have hle2 := (List.pairwise_iff_getElem.mp hpw) m j hml hlt hmj'
          rw [List.getD_eq_getElem _ _ hml]
          rw [List.getD_eq_getElem _ _ hlt] at hjvol
          exact le_trans hjvol hle2
        · have hmj'' : m = j := by omega
          rw [hmj'']
          exact hjvol
      exact absurd hmlt (not_lt.mpr hmvl)

/-- Witness for C4: on the full-pipeline state `exState0` with
`dc = 4π`, the bound `mean_cell_volume/dc` is `4`; the hierarchy entry has
volumes `[10, 5, 3, 1]`, so the loop accumulates levels 0 and 1 and stops at
level 2 (volume `3 < 4`): the selected list is `[0, 1]`. -/
theorem C4_vide_accumulation_witness :
    exState0.prevoids = some pv0 ∧
      (pv0.ovols.getD 0 []).length = (pv0.voids.getD 0 []).length + 1 ∧
      minvol0 exState0.tesselation (4 * Real.pi) = 4 ∧
      videStopIdx (pv0.ovols.getD 0 []) 4 = 2 ∧
      (∃ run, sortVoids id id exState0 0 2 (4 * Real.pi) = Except.ok run ∧
        run.voidsSel.getD 0 [] = [0, 1]) := by
  have hmv : minvol0 exState0.tesselation (4 * Real.pi) = 4 := by
    have hfil : ([4 / 3 * Real.pi * 1 ^ 3, 4 / 3 * Real.pi * 2 ^ 3,
        4 / 3 * Real.pi * 3 ^ 3].filter fun v => decide ((0 : ℝ) < v)) =
        [4 / 3 * Real.pi * 1 ^ 3, 4 / 3 * Real.pi * 2 ^ 3,
          4 / 3 * Real.pi * 3 ^ 3] := by
      rw [List.filter_cons_of_pos, List.filter_cons_of_pos,
        List.filter_cons_of_pos, List.filter_nil]
      · exact decide_eq_true (by positivity)
      · exact decide_eq_true (by positivity)
      · exact decide_eq_true (by positivity)
    show listMean ([4 / 3 * Real.pi * 1 ^ 3, 4 / 3 * Real.pi * 2 ^ 3,
        4 / 3 * Real.pi * 3 ^ 3].filter fun v => decide ((0 : ℝ) < v)) /
      (4 * Real.pi) = 4
    rw [hfil, listMean]
    simp only [List.sum_cons, List.sum_nil, List.length_cons, List.length_nil]
    have hπ : Real.pi ≠ 0 := Real.pi_ne_zero
    field_simp
    ring
  have hsi : videStopIdx (pv0.ovols.getD 0 []) 4 = 2 := by
    show videStopIdx [(10 : ℝ), 5, 3, 1] 4 = 2
    rw [videStopIdx]
    rw [show List.range ([(10 : ℝ), 5, 3, 1].length - 1) = [0, 1, 2] from rfl]
    simp only [videStopGo, List.getD_cons_zero, List.getD_cons_succ]
    rw [if_neg (by norm_num), if_neg (by norm_num), if_pos (by norm_num)]
  have hok : sortVoids id id exState0 0 2 (4 * Real.pi) =
      Except.ok (postProcess exState0 0 (4 * Real.pi)
        (videVoids pv0 (minvol0 exState0.tesselation (4 * Real.pi)))) := rfl
  refine ⟨rfl, rfl, hmv, hsi, ⟨_, hok, ?_⟩⟩
  have hc := (C4_vide_accumulation id id exState0 2 (4 * Real.pi) _ pv0 rfl hok 0
    (by simp [pv0]) rfl).1
  rw [hc, hmv, hsi]
  rfl

namespace Vsquared

lemma foldl_preserve {α β : Type} (P : α → Prop) (f : α → β → α)
    (hf : ∀ a b, P a → P (f a b)) :
    ∀ (L : List β) (a : α), P a → P (L.foldl f a) := by
  intro L
  induction L with
  | nil => intro a ha; exact ha
  | cons b L ih => intro a ha; exact ih _ (hf a b ha)

lemma zvInner_length (voids : List (List ℕ)) (i : ℕ) (zv : List (ℤ × ℤ))
    (j : ℕ) : (zvInner voids i zv j).length = zv.length := by
  simp only [zvInner]
  split_ifs <;> simp [List.length_set]

lemma replicate_getD (nz j : ℕ) :
    (List.replicate nz ((-1 : ℤ), (-1 : ℤ))).getD j (-1, -1) = (-1, -1) := by
  rcases Nat.lt_or_ge j nz with h | h
  · rw [List.getD_eq_getElem _ _ (by simpa using h)]
    simp
  · rw [List.getD_eq_default _ _ (by simpa using h)]

lemma getD_set_ne {α : Type} (l : List α) (k j : ℕ) (x d : α) (h : k ≠ j) :
    (l.set k x).getD j d = l.getD j d := by
  rw [List.getD_eq_getElem?_getD, List.getD_eq_getElem?_getD,
    List.getElem?_set_ne h]

lemma getD_set_self {α : Type} (l : List α) (k : ℕ) (x d : α)
    (h : k < l.length) : (l.set k x).getD k d = x := by
  rw [List.getD_eq_getElem?_getD, List.getElem?_set_self h]
  rfl

lemma zvInner_inv (voids : List (List ℕ)) (i : ℕ) (zv : List (ℤ × ℤ)) (j : ℕ)
    (hIV : ∀ p ∈ zv, p = (-1, -1) ∨
      (0 ≤ p.1 ∧ 0 ≤ p.2 ∧
        (voids.getD p.1.toNat []).length ≤ (voids.getD p.2.toNat []).length)) :
    ∀ p ∈ zvInner voids i zv j, p = (-1, -1) ∨
      (0 ≤ p.1 ∧ 0 ≤ p.2 ∧
        (voids.getD p.1.toNat []).length ≤ (voids.getD p.2.toNat []).length) := by
  intro p hp
  have he : zv.getD j (-1, -1) = (-1, -1) ∨
      (0 ≤ (zv.getD j (-1, -1)).1 ∧ 0 ≤ (zv.getD j (-1, -1)).2 ∧
        (voids.getD (zv.getD j (-1, -1)).1.toNat []).length ≤
          (voids.getD (zv.getD j (-1, -1)).2.toNat []).length) := by
    rcases Nat.lt_or_ge j zv.length with h | h
    · apply hIV
      rw [List.getD_eq_getElem _ _ h]
      exact List.getElem_mem _
    · left
      exact List.getD_eq_default _ _ h
  simp only [zvInner] at hp
  split_ifs at hp with h1 h2 h3
  · rcases List.mem_or_eq_of_mem_set hp with hp' | hp'
    · exact hIV p hp'
    · right
      subst hp'
      rcases he with he | he
      · rw [he] at h1
        norm_num at h1
      · exact ⟨Int.natCast_nonneg i, he.2.1, by
          simp only [Int.toNat_natCast]
          exact le_trans (le_of_lt h2) he.2.2⟩
  · rcases List.mem_or_eq_of_mem_set hp with hp' | hp'
    · exact hIV p hp'
    · right
      subst hp'
      refine ⟨h1, Int.natCast_nonneg i, ?_⟩
      simp only [Int.toNat_natCast]
      exact le_of_not_lt h2
  · exact hIV p hp
  · rcases List.mem_or_eq_of_mem_set hp with hp' | hp'
    · exact hIV p hp'
    · right
      subst hp'
      exact ⟨Int.natCast_nonneg i, Int.natCast_nonneg i, le_refl _⟩

lemma buildZvoid_inv (nz : ℕ) (voids : List (List ℕ)) :
    ∀ p ∈ buildZvoid nz voids, p = (-1, -1) ∨
      (0 ≤ p.1 ∧ 0 ≤ p.2 ∧
        (voids.getD p.1.toNat []).length ≤ (voids.getD p.2.toNat []).length) := by
  rw [buildZvoid]
  have h := foldl_preserve (fun zv => ∀ p ∈ zv, p = (-1, -1) ∨
      (0 ≤ p.1 ∧ 0 ≤ p.2 ∧
        (voids.getD p.1.toNat []).length ≤ (voids.getD p.2.toNat []).length))
    (fun zv i => (voids.getD i []).foldl (fun zv2 a => zvInner voids i zv2 a) zv)
    ?_ (List.range voids.length) (List.replicate nz (-1, -1)) ?_
  · exact h
  · intro zv i hzv
    have h2 := foldl_preserve (fun zv2 => ∀ p ∈ zv2, p = (-1, -1) ∨
        (0 ≤ p.1 ∧ 0 ≤ p.2 ∧
          (voids.getD p.1.toNat []).length ≤ (voids.getD p.2.toNat []).length))
      (fun zv2 a => zvInner voids i zv2 a) ?_ (voids.getD i []) zv hzv
    · exact h2
    · intro zv2 a hzv2
      exact zvInner_inv voids i zv2 a hzv2
  · intro p hp
    left
    exact List.eq_of_mem_replicate hp

lemma buildZvoid_length (nz : ℕ) (voids : List (List ℕ)) :
    (buildZvoid nz voids).length = nz := by
  rw [buildZvoid]
  have h := foldl_preserve (fun zv => zv.length = nz)
    (fun zv i => (voids.getD i []).foldl (fun zv2 a => zvInner voids i zv2 a) zv)
    ?_ (List.range voids.length) (List.replicate nz (-1, -1)) (by simp)
  · exact h
  · intro zv i hzv
    have h2 := foldl_preserve (fun zv2 => zv2.length = nz)
      (fun zv2 a => zvInner voids i zv2 a) ?_ (voids.getD i []) zv hzv
    · exact h2
    · intro zv2 a hzv2
      rw [zvInner_length]
      exact hzv2

lemma zvInner_getD_other (voids : List (List ℕ)) (i : ℕ) (zv : List (ℤ × ℤ))
    (a j : ℕ) (h : a ≠ j) :
    (zvInner voids i zv a).getD j (-1, -1) = zv.getD j (-1, -1) := by
  simp only [zvInner]
  split_ifs <;> first | rfl | exact getD_set_ne _ _ _ _ _ h

lemma innerFold_getD_not_mem (voids : List (List ℕ)) (i j : ℕ) :
    ∀ (v : List ℕ) (zv : List (ℤ × ℤ)), j ∉ v →
      ((v.foldl (fun zv2 a => zvInner voids i zv2 a) zv).getD j (-1, -1)) =
        zv.getD j (-1, -1) := by
  intro v
  induction v with
  | nil => intro zv _; rfl
  | cons a v ih =>
    intro zv hj
    rw [List.foldl_cons, ih _ (fun hmem => hj (List.mem_cons_of_mem _ hmem)),
      zvInner_getD_other _ _ _ _ _
        (fun he => hj (by rw [← he]; exact List.mem_cons_self _ _))]

lemma outerFold_getD_not_mem (voids : List (List ℕ)) (j : ℕ) :
    ∀ (L : List ℕ) (zv : List (ℤ × ℤ)), (∀ i ∈ L, j ∉ voids.getD i []) →
      ((L.foldl (fun zv i =>
        (voids.getD i []).foldl (fun zv2 a => zvInner voids i zv2 a) zv) zv).getD
          j (-1, -1)) = zv.getD j (-1, -1) := by
  intro L
  induction L with
  | nil => intro zv _; rfl
  | cons b L ih =>
    intro zv hL
    rw [List.foldl_cons, ih _ (fun i hi => hL i (List.mem_cons_of_mem _ hi)),
      innerFold_getD_not_mem _ _ _ _ _ (hL b (List.mem_cons_self _ _))]

lemma buildZvoid_untouched (nz : ℕ) (voids : List (List ℕ)) (j : ℕ)
    (h : ∀ i, i < voids.length → j ∉ voids.getD i []) :
    (buildZvoid nz voids).getD j (-1, -1) = (-1, -1) := by
  rw [buildZvoid, outerFold_getD_not_mem voids j _ _
    (fun i hi => h i (List.mem_range.mp hi))]
  exact replicate_getD nz j

lemma innerFold_length (voids : List (List ℕ)) (i : ℕ) :
    ∀ (v : List ℕ) (zv : List (ℤ × ℤ)),
      (v.foldl (fun zv2 a => zvInner voids i zv2 a) zv).length = zv.length := by
  intro v
  induction v with
  | nil => intro zv; rfl
  | cons a v ih =>
    intro zv
    rw [List.foldl_cons, ih, zvInner_length]

lemma outerFold_length (voids : List (List ℕ)) :
    ∀ (L : List ℕ) (zv : List (ℤ × ℤ)),
      (L.foldl (fun zv i =>
        (voids.getD i []).foldl (fun zv2 a => zvInner voids i zv2 a) zv)
        zv).length = zv.length := by
  intro L
  induction L with
  | nil => intro zv; rfl
  | cons b L ih =>
    intro zv
    rw [List.foldl_cons, ih, innerFold_length]

lemma innerFold_assign (voids : List (List ℕ)) (i0 : ℕ) (j : ℕ) :
    ∀ (v : List ℕ) (zv : List (ℤ × ℤ)), j < zv.length →
      ((zv.getD j (-1, -1) = (-1, -1) ∧ j ∈ v) ∨
        zv.getD j (-1, -1) = ((i0 : ℤ), (i0 : ℤ))) →
      (v.foldl (fun zv2 a => zvInner voids i0 zv2 a) zv).getD j (-1, -1) =
        ((i0 : ℤ), (i0 : ℤ)) := by
  intro v
  induction v with
  | nil =>
    intro zv _ hcase
    rcases hcase with ⟨_, hmem⟩ | h
    · simp at hmem
    · exact h
  | cons a v ih =>
    intro zv hlen hcase
    rw [List.foldl_cons]
    apply ih _ (by rw [zvInner_length]; exact hlen)
    rcases hcase with ⟨hdef, hmem⟩ | hset
    · by_cases haj : a = j
      · subst haj
        right
        have hstep : zvInner voids i0 zv a = zv.set a ((i0 : ℤ), (i0 : ℤ)) := by
          simp only [zvInner, hdef]
          rw [if_neg (by norm_num)]
        rw [hstep, getD_set_self _ _ _ _ hlen]
      · rcases List.mem_cons.mp hmem with hja | hjv
        · exact absurd hja.symm haj
        · left
          refine ⟨?_, hjv⟩
          rw [zvInner_getD_other _ _ _ _ _ haj]
          exact hdef
    · right
      by_cases haj : a = j
      · subst haj
        have hstep : zvInner voids i0 zv a = zv := by
          simp only [zvInner, hset]
          rw [if_pos (Int.natCast_nonneg i0)]
          simp only [Int.toNat_natCast]
          rw [if_neg (lt_irrefl _), if_neg (lt_irrefl _)]
        rw [hstep]
        exact hset
      · rw [zvInner_getD_other _ _ _ _ _ haj]
        exact hset

lemma buildZvoid_first (nz : ℕ) (voids : List (List ℕ)) (j i0 : ℕ)
    (hj : j < nz) (hi0 : i0 < voids.length) (hmem : j ∈ voids.getD i0 [])
    (hnot : ∀ i', i' < i0 → j ∉ voids.getD i' []) :
    (buildZvoid nz (voids.take (i0 + 1))).getD j (-1, -1) =
      ((i0 : ℤ), (i0 : ℤ)) := by
  have hTlen : (voids.take (i0 + 1)).length = i0 + 1 := by
    rw [List.length_take]
    omega
  have hTget : ∀ i, i ≤ i0 → (voids.take (i0 + 1)).getD i [] = voids.getD i [] := by
    intro i hi
    have hi' : i < voids.length := by omega
    rw [List.getD_eq_getElem _ _ (by rw [hTlen]; omega),
      List.getD_eq_getElem _ _ hi']
    exact List.getElem_take _
  rw [buildZvoid, hTlen, List.range_succ, List.foldl_append, List.foldl_cons,
    List.foldl_nil]
  apply innerFold_assign
  · rw [outerFold_length]
    simpa using hj
  · left
    constructor
    · rw [outerFold_getD_not_mem]
      · exact replicate_getD nz j
      · intro i hi
        rw [hTget i (le_of_lt (List.mem_range.mp hi))]
        exact hnot i (List.mem_range.mp hi)
    · rw [hTget i0 le_rfl]
      exact hmem

lemma postProcess_zvoid (s : ZobovState) (m : ℕ) (dc : ℝ)
    (voids : List (List ℕ)) :
    (postProcess s m dc voids).zvoid =
      buildZvoid (s.zones.getD default).zvols.length
        (postProcess s m dc voids).voidsF := rfl

end Vsquared

/-- Claim C6: after a successful `sortVoids` run, every zone whose zone-void
map entry is assigned (first component not the `-1` sentinel) has
nonnegative candidate indices with `size(candidate[primary]) ≤
size(candidate[secondary])`; zones appearing in no candidate keep the
`(-1,-1)` sentinel pair; and a zone's first assignment sets primary and
secondary to the same candidate (processing the candidates up to and
including the first one containing the zone yields the pair `(i0, i0)`). -/
theorem C6_zone_void_map (Pf isf : ℝ → ℝ) (s : ZobovState) (m : ℕ)
    (minsig dc : ℝ) (run : RunData)
    (hok : sortVoids Pf isf s m minsig dc = Except.ok run) :
    (∀ j, j < run.zvoid.length → (run.zvoid.getD j (-1, -1)).1 ≠ -1 →
      0 ≤ (run.zvoid.getD j (-1, -1)).1 ∧ 0 ≤ (run.zvoid.getD j (-1, -1)).2 ∧
        (run.voidsF.getD (run.zvoid.getD j (-1, -1)).1.toNat []).length ≤
          (run.voidsF.getD (run.zvoid.getD j (-1, -1)).2.toNat []).length) ∧
    (∀ j, (∀ i, i < run.voidsF.length → j ∉ run.voidsF.getD i []) →
      run.zvoid.getD j (-1, -1) = (-1, -1)) ∧
    (∀ j i0, j < run.zvoid.length → i0 < run.voidsF.length →
      j ∈ run.voidsF.getD i0 [] → (∀ i', i' < i0 → j ∉ run.voidsF.getD i' []) →
      (buildZvoid run.zvoid.length (run.voidsF.take (i0 + 1))).getD j (-1, -1) =
        ((i0 : ℤ), (i0 : ℤ))) := by
  rw [sortVoids] at hok
  split_ifs at hok
  cases hsel : selectVoids Pf isf s m minsig dc with
  | error e =>
    rw [hsel] at hok
    simp at hok
  | ok voids =>
    rw [hsel] at hok
    simp only [Except.ok.injEq] at hok
    subst hok
    refine ⟨?_, ?_, ?_⟩
    · intro j hj hne
      have hmem : (postProcess s m dc voids).zvoid.getD j (-1, -1) ∈
          (postProcess s m dc voids).zvoid := by
        rw [List.getD_eq_getElem _ _ hj]
        exact List.getElem_mem _
      rw [postProcess_zvoid] at hmem
      rcases buildZvoid_inv _ _ _ hmem with hcase | hcase
      · rw [postProcess_zvoid] at hne ⊢
        rw [hcase] at hne
        norm_num at hne
      · rw [postProcess_zvoid]
        exact hcase
    · intro j hnone
      rw [postProcess_zvoid]
      exact buildZvoid_untouched _ _ _ hnone
    · intro j i0 hj hi0 hmem hnot
      apply buildZvoid_first
      · exact hj
      · exact hi0
      · exact hmem
      · exact hnot

/-- Witness for C6: the method-4 run on `exState` has final candidates
`[[2]]` and zone-void map `[(-1,-1), (-1,-1), (0,0)]`; the theorem applied
to it gives the size invariant, and concretely zone 2's entry is the
assigned pair `(0,0)` while zones 0 and 1 keep the sentinel. -/
theorem C6_zone_void_map_witness :
    sortVoids id id exState 4 2 (1 / 5) = Except.ok exRun ∧
      exRun.zvoid = [(-1, -1), (-1, -1), (0, 0)] ∧ exRun.voidsF = [[2]] ∧
      (∀ j, j < exRun.zvoid.length → (exRun.zvoid.getD j (-1, -1)).1 ≠ -1 →
        0 ≤ (exRun.zvoid.getD j (-1, -1)).1 ∧
          0 ≤ (exRun.zvoid.getD j (-1, -1)).2 ∧
          (exRun.voidsF.getD (exRun.zvoid.getD j (-1, -1)).1.toNat []).length ≤
            (exRun.voidsF.getD (exRun.zvoid.getD j (-1, -1)).2.toNat []).length) :=
  ⟨exRun_eq, exRun_zvoid, exRun_voidsF,
    (C6_zone_void_map id id exState 4 2 (1 / 5) exRun exRun_eq).1⟩
